import Mathlib

set_option maxRecDepth 4000

/-!
Shallow embedding of the pynx587e repository (src/pynx587e).

The authoritative controller is nx587e.py (class NXController); model.py
holds the protocol tables and flexdevice.py the per-device state store.
Python values are translated as follows: the tri-state stored in a
FlexDevice dictionary is an Int (-1 for the initial "unknown", 0 for a
stored False, 1 for a stored True; Python compares bool and int
numerically, with False == 0 and True == 1, so Int equality mirrors the
source comparisons exactly). Timestamps (datetime.now in the source) are
modelled as an Int clock value passed explicitly to each state-changing
call; the initial timestamp is the Int -1 exactly as in flexdevice.py.
Fallible paths (KeyError, IndexError, unbound locals, TypeError) are
explicit constructors of result types.

Note on the device table: model.py defines the category to maximum-id
table as the dictionary named UNDERSCORE NX_DEFAULT_NODES (ZN 48, PA 2);
nx587e.py refers to this table by the attribute name model._NX_MAX_DEVICES.
The embedding uses the values from model.py for that table, as the
claims themselves do.
-/

/-- Python dictionary lookup d[k]: first matching key, none models KeyError. -/
def dictGet {α : Type} : List (String × α) → String → Option α
  | [], _ => Option.none
  | (k, v) :: rest, key => if k = key then some v else dictGet rest key

/-- Python dictionary assignment d[k] = v: replaces the value in place if the
key exists, otherwise appends the new pair at the end (insertion order). -/
def dictSet {α : Type} : List (String × α) → String → α → List (String × α)
  | [], key, value => [(key, value)]
  | (k, v) :: rest, key, value =>
      if k = key then (k, value) :: rest else (k, v) :: dictSet rest key value

/-- Python list indexing l[i] for a possibly negative index: a negative index
counts from the end of the list; an index outside [-len, len-1] models
IndexError as none. -/
def pyIndex (len : Nat) (i : Int) : Option Nat :=
  if i < 0 then
    if 0 ≤ i + (len : Int) then some (i + (len : Int)).toNat else Option.none
  else
    if i < (len : Int) then some i.toNat else Option.none

/-- Python str.isnumeric for the ASCII lines of this protocol: nonempty and
all decimal digits. -/
def pyIsNumeric (s : String) : Bool := !s.isEmpty && s.data.all Char.isDigit

/-- Python int() on a nonempty decimal digit string. -/
def natFromDigits (ds : List Char) : Nat :=
  ds.foldl (fun n c => 10 * n + (c.toNat - 48)) 0

/-- Python str.zfill(w): left-pad with the character 0 up to width w. -/
def zfill (w : Nat) (s : String) : String :=
  if s.length < w then String.mk (List.replicate (w - s.length) '0') ++ s else s

/-! ## model.py -/

/-- model.py: the _ZONE_TOPICS list (order is significant). -/
def ZONE_TOPICS : List String :=
  ["fault", "tamper", "trouble", "bypass", "alarmMemory", "inhibit",
   "lowBattery", "lost", "memoryBypass"]

/-- model.py: the _PARTITION_TOPICS list (order is significant). -/
def PARTITION_TOPICS : List String :=
  ["ready", "armed", "stay", "chime", "entryDelay", "exitPeriod",
   "previousAlarm", "siren"]

/-- model.py: _NX_EVENT_TYPES, the category code to topic list dictionary,
as a lookup function (keys ZN and PA). -/
def NX_EVENT_TYPES (ty : String) : Option (List String) :=
  if ty = "ZN" then some ZONE_TOPICS
  else if ty = "PA" then some PARTITION_TOPICS
  else Option.none

/-- model.py: the category to maximum-id table (named _NX_DEFAULT_NODES in
model.py; nx587e.py calls it model._NX_MAX_DEVICES). ZN 48, PA 2. -/
def NX_MAX_DEVICES (ty : String) : Option Nat :=
  if ty = "ZN" then some 48
  else if ty = "PA" then some 2
  else Option.none

/-- model.py: _keymap_au_nz. -/
def keymap_au_nz : List (String × String) :=
  [("partial", "K"), ("chime", "C"), ("exit", "E"), ("bypass", "B"),
   ("on", "S"), ("fire", "F"), ("medical", "M"), ("hold_up", "H"),
   ("nx_quick_arm", "S"), ("nx_stay", "K")]

/-- model.py: _keymap_usa. -/
def keymap_usa : List (String × String) :=
  [("stay", "S"), ("chime", "C"), ("exit", "E"), ("bypass", "B"),
   ("cancel", "K"), ("fire", "F"), ("medical", "M"), ("hold_up", "H"),
   ("nx_quick_arm", "E"), ("nx_stay", "S")]

/-- model.py: _supported_keymaps as a lookup function (keys AUNZ and USA). -/
def supported_keymaps (k : String) : Option (List (String × String)) :=
  if k = "AUNZ" then some keymap_au_nz
  else if k = "USA" then some keymap_usa
  else Option.none

/-- model.py: _setup_options, the NX-587E start-up configuration string. -/
def SETUP_OPTIONS : String := "taliPZn"

/-! ## flexdevice.py -/

/-- flexdevice.py: the _flexDeviceState dictionary of a FlexDevice, mapping
each topic name and each topic name suffixed with _time to an Int. -/
abbrev FlexDevice : Type := List (String × Int)

/-- flexdevice.py FlexDevice.__init__: for each element, create the keys
item and item_time, both mapped to -1, in order. -/
def initState : List String → FlexDevice
  | [] => []
  | t :: ts => (t, -1) :: (t ++ "_time", -1) :: initState ts

/-- flexdevice.py FlexDevice.get: dictionary lookup (KeyError as none). -/
def FlexDevice.get (d : FlexDevice) (item : String) : Option Int :=
  dictGet d item

/-- flexdevice.py FlexDevice.set: store value under item and the clock value
under item_time. -/
def FlexDevice.set (d : FlexDevice) (item : String) (value : Int) (now : Int) :
    FlexDevice :=
  dictSet (dictSet d item value) (item ++ "_time") now

/-- The key set of initState: each topic contributes itself and its
_time-suffixed companion. -/
def initKeys (topics : List String) : List String :=
  topics.flatMap (fun t => [t, t ++ "_time"])

/-! ## nx587e.py: decode -/

/-- Python bool stored by NXController._update: True is 1, False is 0
(Python int/bool comparison is numeric). -/
def encodeB (b : Bool) : Int := if b then 1 else 0

/-- A decoded multi_state_event from NXController._decode:
type, id and the ordered topic dictionary. -/
structure StateEvent where
  type : String
  id : Nat
  topics : List (String × Bool)
deriving DecidableEq

/-- The individual_event dictionary passed to the on_event callback by
NXController._update. -/
structure ChangeNote where
  type : String
  id : Nat
  topic : String
  payload : Bool
  time : Int
deriving DecidableEq

/-- Python error outcomes that the controller code can raise. -/
inductive PyErr where
  | keyError
  | indexError
  | unbound
deriving DecidableEq

/-- Outcome of NXController._decode on one raw line. -/
inductive DecodeResult where
  | event (e : StateEvent)
  | unsupported
  | raises (e : PyErr)
  | diverges
deriving DecidableEq

/-- The maximal run of decimal digits following the two category characters
of a raw line: in _decode, the while loop on raw_event[2:num_char].isnumeric()
consumes exactly this run. -/
def lineDigits (raw : String) : List Char :=
  (raw.data.drop 2).takeWhile Char.isDigit

/-- The payload characters of a raw line: everything after the category code
and the digit run (raw_event[status_position:]). -/
def linePayload (raw : String) : List Char :=
  (raw.data.drop 2).drop (lineDigits raw).length

/-- nx587e.py NXController._decode. The first two characters are the event
type; if unrecognized the function returns None (unsupported). Otherwise the
while loop consumes the digit run after position 2. Because a Python slice
raw_event[2:num_char] is clamped to the end of the string, the loop condition
stays true forever when every character from position 2 on is a digit and at
least one digit exists, so _decode never returns on such lines (diverges).
When the loop never runs (no digit at position 2) the local variable id is
never bound; the topic dictionary is built first, so a payload longer than
the topic list raises IndexError before the unbound id raises, and the
unbound id raises otherwise. On the remaining lines it returns the event:
the id is int() of the digit run and each payload character is paired
positionally with the topic list, uppercase mapping to true. -/
def decode (raw : String) : DecodeResult :=
  match NX_EVENT_TYPES (String.mk (raw.data.take 2)) with
  | Option.none => DecodeResult.unsupported
  | some topics =>
    if lineDigits raw ≠ [] ∧ (lineDigits raw).length = (raw.data.drop 2).length
    then DecodeResult.diverges
    else if topics.length < (linePayload raw).length then
      DecodeResult.raises PyErr.indexError
    else if lineDigits raw = [] then
      DecodeResult.raises PyErr.unbound
    else
      DecodeResult.event
        ⟨String.mk (raw.data.take 2), natFromDigits (lineDigits raw),
         (topics.zip (linePayload raw)).map (fun p => (p.1, p.2.isUpper))⟩

example :
    decode "ZN001FttBaillb" =
      DecodeResult.event
        ⟨"ZN", 1,
         [("fault", true), ("tamper", false), ("trouble", false),
          ("bypass", true), ("alarmMemory", false), ("inhibit", false),
          ("lowBattery", false), ("lost", false), ("memoryBypass", false)]⟩ := by
  decide

example : decode "PA1Rasb" =
    DecodeResult.event
      ⟨"PA", 1, [("ready", true), ("armed", false), ("stay", false),
                 ("chime", false)]⟩ := by decide

example : decode "XX001Ftt" = DecodeResult.unsupported := by decide

example : decode "ZN001" = DecodeResult.diverges := by decide

example : decode "ZNFttBaillb" = DecodeResult.raises PyErr.unbound := by decide

example : decode "ZN001FttBaillbXX" = DecodeResult.raises PyErr.indexError := by
  decide

/-! ## nx587e.py: device bank and _update -/

/-- The deviceBank built in NXController._connect_and_process: one list of
FlexDevice per category key (ZN and PA). -/
structure Bank where
  zn : List FlexDevice
  pa : List FlexDevice
deriving DecidableEq

/-- Dictionary read self.deviceBank[ty]. -/
def Bank.get? (b : Bank) (ty : String) : Option (List FlexDevice) :=
  if ty = "ZN" then some b.zn
  else if ty = "PA" then some b.pa
  else Option.none

/-- Replacing the device list of one category of the bank. -/
def Bank.put (b : Bank) (ty : String) (devs : List FlexDevice) : Bank :=
  if ty = "ZN" then ⟨devs, b.pa⟩
  else if ty = "PA" then ⟨b.zn, devs⟩
  else b

/-- nx587e.py _connect_and_process: the freshly constructed deviceBank, one
FlexDevice per id up to the category maximum, every entry -1. -/
def mkBank : Bank :=
  ⟨List.replicate 48 (initState ZONE_TOPICS),
   List.replicate 2 (initState PARTITION_TOPICS)⟩

/-- One iteration of the topic loop in NXController._update: read the stored
value of the topic from the device at index idx, and when it differs from the
payload, write the new value (stamping the time) and report the
individual_event, suppressed when the previous value was -1. The time field
of the reported event is read back from the device after the write. -/
def updateStep (ty : String) (id : Nat) (now : Int) (devs : List FlexDevice)
    (idx : Nat) (tp : String × Bool) :
    Except PyErr (List FlexDevice × Option ChangeNote) :=
  match devs[idx]? with
  | Option.none => Except.error PyErr.indexError
  | some dev =>
    match dev.get tp.1 with
    | Option.none => Except.error PyErr.keyError
    | some prev =>
      if prev ≠ encodeB tp.2 then
        let dev2 := dev.set tp.1 (encodeB tp.2) now
        match dev2.get (tp.1 ++ "_time") with
        | Option.none => Except.error PyErr.keyError
        | some t =>
          Except.ok (devs.set idx dev2,
            if prev = -1 then Option.none else some ⟨ty, id, tp.1, tp.2, t⟩)
      else
        Except.ok (devs, Option.none)

/-- The topic loop of NXController._update over the whole event, collecting
the callback invocations in order. The device index id-1 is recomputed from
the current list on each iteration, with Python negative-index semantics. -/
def updateLoop (ty : String) (id : Nat) (now : Int) :
    List (String × Bool) → List FlexDevice → List ChangeNote →
    Except PyErr (List FlexDevice × List ChangeNote)
  | [], devs, acc => Except.ok (devs, acc)
  | tp :: rest, devs, acc =>
    match pyIndex devs.length ((id : Int) - 1) with
    | Option.none => Except.error PyErr.indexError
    | some idx =>
      match updateStep ty id now devs idx tp with
      | Except.error e => Except.error e
      | Except.ok (devs2, o) => updateLoop ty id now rest devs2 (acc ++ o.toList)

/-- nx587e.py NXController._update: look up the category maximum (KeyError for
an unrecognized type); when the id is at most the maximum, run the topic loop
against the device list of that category, else ignore the event entirely. -/
def update (bank : Bank) (ev : StateEvent) (now : Int) :
    Except PyErr (Bank × List ChangeNote) :=
  match NX_MAX_DEVICES ev.type with
  | Option.none => Except.error PyErr.keyError
  | some mx =>
    if ev.id ≤ mx then
      match bank.get? ev.type with
      | Option.none => Except.error PyErr.keyError
      | some devs =>
        match updateLoop ev.type ev.id now ev.topics devs [] with
        | Except.error e => Except.error e
        | Except.ok (devs2, notes) => Except.ok (bank.put ev.type devs2, notes)
    else
      Except.ok (bank, [])

/-! ## nx587e.py: get_status, _direct_query, send -/

/-- Outcome of NXController.get_status. -/
inductive GSResult where
  | ok (value : Int) (time : Int)
  | getStatusError
  | connectionError
  | raisesKey
  | raisesIndex
deriving DecidableEq

/-- nx587e.py NXController.get_status: requires _run_threads (else
ConnectionError), a recognized event type and id at most the maximum (else
GetStatusError), then reads topic and topic_time from the device at index
id-1 (Python indexing, so a KeyError surfaces for a key absent from the
device dictionary). -/
def get_status (running : Bool) (bank : Bank) (ty : String) (id : Int)
    (topic : String) : GSResult :=
  if running then
    match NX_EVENT_TYPES ty with
    | Option.none => GSResult.getStatusError
    | some _ =>
      match NX_MAX_DEVICES ty with
      | Option.none => GSResult.raisesKey
      | some mx =>
        if id ≤ (mx : Int) then
          match bank.get? ty with
          | Option.none => GSResult.raisesKey
          | some devs =>
            match pyIndex devs.length (id - 1) with
            | Option.none => GSResult.raisesIndex
            | some idx =>
              match devs[idx]? with
              | Option.none => GSResult.raisesIndex
              | some dev =>
                match dev.get topic with
                | Option.none => GSResult.raisesKey
                | some v =>
                  match dev.get (topic ++ "_time") with
                  | Option.none => GSResult.raisesKey
                  | some t => GSResult.ok v t
        else GSResult.getStatusError
  else GSResult.connectionError

/-- nx587e.py NXController._direct_query: for a recognized event type with id
at most the maximum, enqueue the query string: PA gives Q followed by
str(192+id) (the NX-587E multiplexes queries as Q001..Q192 for zones and
Q193..Q200 for partitions), ZN gives Q followed by str(id).zfill(3).
Otherwise nothing is enqueued. -/
def direct_query (ty : String) (id : Nat) : Option String :=
  match NX_EVENT_TYPES ty with
  | Option.none => Option.none
  | some _ =>
    match NX_MAX_DEVICES ty with
    | Option.none => Option.none
    | some mx =>
      if id ≤ mx then
        if ty = "PA" then some ("Q" ++ toString (192 + id))
        else if ty = "ZN" then some ("Q" ++ zfill 3 (toString id))
        else Option.none
      else Option.none

/-- Outcome of NXController.send. -/
inductive SendResult where
  | enqueued (c : String)
  | typeError
  | unboundLocal
  | skipped
deriving DecidableEq

/-- nx587e.py NXController.send: a numeric in_command of length 4 passes
through verbatim; for any other numeric in_command the test
len(in_command == 6) applies len() to a bool and raises TypeError. A
non-numeric in_command is looked up in the active keymap, then compared to
the literal nx587_setup (which maps to the setup options string); when all
three branches miss, the local variable command is never assigned and the
final read of command raises UnboundLocalError. An assigned command is
enqueued when it is nonempty. -/
def send (keymapName : String) (in_command : String) : SendResult :=
  if pyIsNumeric in_command then
    if in_command.length = 4 then
      if in_command = "" then SendResult.skipped else SendResult.enqueued in_command
    else SendResult.typeError
  else
    match supported_keymaps keymapName with
    | Option.none => SendResult.unboundLocal
    | some km =>
      match dictGet km in_command with
      | some c =>
        if c = "" then SendResult.skipped else SendResult.enqueued c
      | Option.none =>
        if in_command = "nx587_setup" then
          if SETUP_OPTIONS = "" then SendResult.skipped
          else SendResult.enqueued SETUP_OPTIONS
        else SendResult.unboundLocal

/-! ## Projections used to state concrete facts about run outcomes -/

/-- The callback invocations of an update outcome (empty on an error). -/
def notesOf (r : Except PyErr (Bank × List ChangeNote)) : List ChangeNote :=
  match r with
  | Except.ok p => p.2
  | Except.error _ => []

/-- The bank of an update outcome, with a fallback for the error case. -/
def bankOf (r : Except PyErr (Bank × List ChangeNote)) (fallback : Bank) : Bank :=
  match r with
  | Except.ok p => p.1
  | Except.error _ => fallback

/-- The event of a decode outcome, with a fallback. -/
def eventOf (r : DecodeResult) (fallback : StateEvent) : StateEvent :=
  match r with
  | DecodeResult.event e => e
  | _ => fallback

/-- A placeholder event used as the eventOf fallback in concrete statements. -/
def dummyEvent : StateEvent := ⟨"", 0, []⟩

/-- The stored value of one topic of one device of a bank (1-based id). -/
def valueAt (b : Bank) (ty : String) (id : Nat) (t : String) : Option Int :=
  (b.get? ty).bind fun devs => (devs[id - 1]?).bind fun d => d.get t

/-- The stored value read through a device list at a raw index. -/
def getAt (devs : List FlexDevice) (j : Nat) (t : String) : Option Int :=
  (devs[j]?).bind fun d => FlexDevice.get d t

example :
    notesOf (update mkBank (eventOf (decode "ZN001FttBaillb") dummyEvent) 1) = [] := by
  decide

example :
    valueAt (bankOf (update mkBank (eventOf (decode "ZN001FttBaillb") dummyEvent) 1)
        mkBank) "ZN" 1 "fault" = some 1 := by
  decide

/-! ## Generic lemmas: strings, dictionaries, devices -/

theorem str_ne_append (s u : String) (h : u ≠ "") : s ≠ s ++ u := by
  intro he
  have h2 : s.data = s.data ++ u.data := by
    conv_lhs => rw [he]
    exact String.data_append s u
  have h4 : s.data ++ [] = s.data ++ u.data := by simpa using h2
  have h5 : u.data = [] := (List.append_cancel_left h4).symm
  exact h (String.ext (by simp [h5]))

theorem str_append_cancel {s t u : String} (h : s ++ u = t ++ u) : s = t := by
  have h2 : s.data ++ u.data = t.data ++ u.data := by
    rw [← String.data_append, ← String.data_append, h]
  exact String.ext (List.append_cancel_right h2)

theorem dictGet_dictSet_self {α : Type} (l : List (String × α)) (k : String)
    (v : α) : dictGet (dictSet l k v) k = some v := by
  induction l with
  | nil => simp [dictGet, dictSet]
  | cons p rest ih =>
    obtain ⟨a, b⟩ := p
    by_cases h : a = k
    · simp [dictSet, dictGet, h]
    · simp [dictSet, dictGet, h, ih]

theorem dictGet_dictSet_ne {α : Type} (l : List (String × α)) (k k2 : String)
    (v : α) (h : k2 ≠ k) : dictGet (dictSet l k v) k2 = dictGet l k2 := by
  induction l with
  | nil => simp [dictGet, dictSet, Ne.symm h]
  | cons p rest ih =>
    obtain ⟨a, b⟩ := p
    by_cases hp : a = k
    · subst hp
      simp [dictSet, dictGet, Ne.symm h]
    · by_cases hq : a = k2
      · simp [dictSet, dictGet, hp, hq, h]
      · simp [dictSet, dictGet, hp, hq, ih]

theorem flex_get_set_value (d : FlexDevice) (t : String) (value now : Int) :
    (FlexDevice.set d t value now).get t = some value := by
  unfold FlexDevice.set FlexDevice.get
  rw [dictGet_dictSet_ne _ _ _ _ (str_ne_append t "_time" (by decide))]
  exact dictGet_dictSet_self _ _ _

theorem flex_get_set_time (d : FlexDevice) (t : String) (value now : Int) :
    (FlexDevice.set d t value now).get (t ++ "_time") = some now := by
  unfold FlexDevice.set FlexDevice.get
  exact dictGet_dictSet_self _ _ _

theorem flex_get_set_other (d : FlexDevice) (t : String) (value now : Int)
    (s : String) (h1 : s ≠ t) (h2 : s ≠ t ++ "_time") :
    (FlexDevice.set d t value now).get s = d.get s := by
  unfold FlexDevice.set FlexDevice.get
  rw [dictGet_dictSet_ne _ _ _ _ h2, dictGet_dictSet_ne _ _ _ _ h1]

theorem mem_initKeys {topics : List String} {k : String} :
    k ∈ initKeys topics ↔ k ∈ topics ∨ ∃ b ∈ topics, k = b ++ "_time" := by
  unfold initKeys
  rw [List.mem_flatMap]
  constructor
  · rintro ⟨b, hb, hk⟩
    simp only [List.mem_cons, List.mem_singleton, List.not_mem_nil, or_false] at hk
    rcases hk with hk | hk
    · exact Or.inl (hk ▸ hb)
    · exact Or.inr ⟨b, hb, hk⟩
  · rintro (hk | ⟨b, hb, hk⟩)
    · exact ⟨k, hk, by simp⟩
    · exact ⟨b, hb, by simp [hk]⟩

theorem dictGet_initState (topics : List String) (k : String) :
    dictGet (initState topics) k =
      if k ∈ initKeys topics then some (-1) else Option.none := by
  induction topics with
  | nil => simp [initState, initKeys, dictGet]
  | cons t rest ih =>
    simp only [initState, dictGet]
    by_cases h1 : t = k
    · rw [if_pos h1, if_pos]
      rw [mem_initKeys]
      exact Or.inl (by simp [h1])
    · rw [if_neg h1]
      by_cases h2 : t ++ "_time" = k
      · rw [if_pos h2, if_pos]
        rw [mem_initKeys]
        exact Or.inr ⟨t, by simp, h2.symm⟩
      · rw [if_neg h2, ih]
        by_cases h3 : k ∈ initKeys rest
        · rw [if_pos h3, if_pos]
          rw [mem_initKeys] at h3 ⊢
          rcases h3 with h3 | ⟨b, hb, hk⟩
          · exact Or.inl (by simp [h3])
          · exact Or.inr ⟨b, by simp [hb], hk⟩
        · rw [if_neg h3, if_neg]
          rw [mem_initKeys] at h3 ⊢
          rintro (hk | ⟨b, hb, hk⟩)
          · rcases List.mem_cons.mp hk with hk | hk
            · exact h1 hk.symm
            · exact h3 (Or.inl hk)
          · rcases List.mem_cons.mp hb with hb | hb
            · exact h2 (by rw [hb] at hk; exact hk.symm)
            · exact h3 (Or.inr ⟨b, hb, hk⟩)

theorem pyIndex_of_nonneg (len : Nat) (i : Int) (h0 : 0 ≤ i) (h1 : i < len) :
    pyIndex len i = some i.toNat := by
  unfold pyIndex
  rw [if_neg (by omega), if_pos h1]

theorem pyIndex_pos (len id : Nat) (h1 : 1 ≤ id) (h2 : id ≤ len) :
    pyIndex len ((id : Int) - 1) = some (id - 1) := by
  rw [pyIndex_of_nonneg len _ (by omega) (by omega)]
  congr 1
  omega

theorem encodeB_ne_neg_one (v : Bool) : encodeB v ≠ -1 := by
  cases v <;> decide

theorem getElem?_lt {α : Type} {l : List α} {i : Nat} {a : α}
    (h : l[i]? = some a) : i < l.length := by
  by_contra hn
  rw [List.getElem?_eq_none (by omega)] at h
  exact Option.noConfusion h

theorem getElem?_replicate_lt {α : Type} {n i : Nat} {a : α} (h : i < n) :
    (List.replicate n a)[i]? = some a := by
  simp [List.getElem?_replicate, h]

/-! ## Lemmas about updateStep and updateLoop -/

theorem getAt_eq {devs : List FlexDevice} {j : Nat} {d : FlexDevice}
    (h : devs[j]? = some d) (s : String) : getAt devs j s = d.get s := by
  simp [getAt, h]

theorem updateStep_ok_of {devs : List FlexDevice} {idx : Nat} {dev : FlexDevice}
    {t : String} {prev : Int} (ty : String) (id : Nat) (now : Int) (v : Bool)
    (hdev : devs[idx]? = some dev) (hprev : dev.get t = some prev) :
    updateStep ty id now devs idx (t, v) =
      if prev = encodeB v then Except.ok (devs, Option.none)
      else
        Except.ok (devs.set idx (dev.set t (encodeB v) now),
          if prev = -1 then Option.none else some ⟨ty, id, t, v, now⟩) := by
  unfold updateStep
  rw [hdev]
  simp only [hprev]
  by_cases hp : prev = encodeB v
  · rw [if_neg (by simpa using hp), if_pos hp]
  · rw [if_pos (by simpa using hp), if_neg hp]
    rw [flex_get_set_time]

theorem updateStep_shape {ty : String} {id : Nat} {now : Int}
    {devs devs2 : List FlexDevice} {idx : Nat} {tp : String × Bool}
    {o : Option ChangeNote}
    (h : updateStep ty id now devs idx tp = Except.ok (devs2, o)) :
    ∃ dev prev, devs[idx]? = some dev ∧ dev.get tp.1 = some prev ∧
      ((prev = encodeB tp.2 ∧ devs2 = devs ∧ o = Option.none) ∨
       (prev ≠ encodeB tp.2 ∧
        devs2 = devs.set idx (dev.set tp.1 (encodeB tp.2) now) ∧
        o = if prev = -1 then Option.none else some ⟨ty, id, tp.1, tp.2, now⟩)) := by
  obtain ⟨t, v⟩ := tp
  unfold updateStep at h
  cases hdev : devs[idx]? with
  | none => rw [hdev] at h; exact absurd h (by simp)
  | some dev =>
    rw [hdev] at h
    cases hprev : dev.get t with
    | none => simp only [hprev] at h; exact absurd h (by simp)
    | some prev =>
      refine ⟨dev, prev, rfl, hprev, ?_⟩
      simp only [hprev] at h
      by_cases hp : prev = encodeB v
      · rw [if_neg (by simpa using hp)] at h
        simp only [Except.ok.injEq, Prod.mk.injEq] at h
        exact Or.inl ⟨hp, h.1.symm, h.2.symm⟩
      · rw [if_pos (by simpa using hp), flex_get_set_time] at h
        simp only [Except.ok.injEq, Prod.mk.injEq] at h
        exact Or.inr ⟨hp, h.1.symm, h.2.symm⟩

theorem updateStep_length {ty : String} {id : Nat} {now : Int}
    {devs devs2 : List FlexDevice} {idx : Nat} {tp : String × Bool}
    {o : Option ChangeNote}
    (h : updateStep ty id now devs idx tp = Except.ok (devs2, o)) :
    devs2.length = devs.length := by
  obtain ⟨dev, prev, hdev, hprev, hcase⟩ := updateStep_shape h
  rcases hcase with ⟨_, h2, _⟩ | ⟨_, h2, _⟩
  · rw [h2]
  · rw [h2, List.length_set]

theorem updateStep_frame {ty : String} {id : Nat} {now : Int}
    {devs devs2 : List FlexDevice} {idx : Nat} {tp : String × Bool}
    {o : Option ChangeNote}
    (h : updateStep ty id now devs idx tp = Except.ok (devs2, o))
    (s : String) (hs1 : s ≠ tp.1) (hs2 : s ≠ tp.1 ++ "_time") (j : Nat) :
    getAt devs2 j s = getAt devs j s := by
  obtain ⟨dev, prev, hdev, hprev, hcase⟩ := updateStep_shape h
  rcases hcase with ⟨_, h2, _⟩ | ⟨_, h2, _⟩
  · rw [h2]
  · rw [h2]
    by_cases hj : j = idx
    · subst hj
      rw [getAt_eq hdev s,
        getAt_eq (by rw [List.getElem?_set_self]; simp [getElem?_lt hdev]) s]
      exact flex_get_set_other dev tp.1 (encodeB tp.2) now s hs1 hs2
    · unfold getAt
      rw [List.getElem?_set_ne (fun he => hj he.symm)]

theorem updateLoop_length {ty : String} {id : Nat} {now : Int} :
    ∀ (tps : List (String × Bool)) (devs : List FlexDevice)
      (acc : List ChangeNote) {devs2 : List FlexDevice} {acc2 : List ChangeNote},
      updateLoop ty id now tps devs acc = Except.ok (devs2, acc2) →
      devs2.length = devs.length := by
  intro tps
  induction tps with
  | nil =>
    intro devs acc devs2 acc2 h
    rw [updateLoop] at h
    simp only [Except.ok.injEq, Prod.mk.injEq] at h
    rw [← h.1]
  | cons tp rest ih =>
    intro devs acc devs2 acc2 h
    rw [updateLoop] at h
    cases hpy : pyIndex devs.length ((id : Int) - 1) with
    | none =>
      simp only [hpy] at h
      exact Except.noConfusion h
    | some idx =>
      cases hst : updateStep ty id now devs idx tp with
      | error e =>
        simp only [hpy, hst] at h
        exact Except.noConfusion h
      | ok p =>
        obtain ⟨devs1, o⟩ := p
        simp only [hpy, hst] at h
        rw [ih devs1 (acc ++ o.toList) h, updateStep_length hst]

theorem updateLoop_frame {ty : String} {id : Nat} {now : Int} (s : String) :
    ∀ (tps : List (String × Bool)) (devs : List FlexDevice)
      (acc : List ChangeNote) {devs2 : List FlexDevice} {acc2 : List ChangeNote},
      (∀ p ∈ tps, s ≠ p.1 ∧ s ≠ p.1 ++ "_time") →
      updateLoop ty id now tps devs acc = Except.ok (devs2, acc2) →
      ∀ j : Nat, getAt devs2 j s = getAt devs j s := by
  intro tps
  induction tps with
  | nil =>
    intro devs acc devs2 acc2 _ h j
    rw [updateLoop] at h
    simp only [Except.ok.injEq, Prod.mk.injEq] at h
    rw [← h.1]
  | cons tp rest ih =>
    intro devs acc devs2 acc2 hs h j
    rw [updateLoop] at h
    cases hpy : pyIndex devs.length ((id : Int) - 1) with
    | none =>
      simp only [hpy] at h
      exact Except.noConfusion h
    | some idx =>
      cases hst : updateStep ty id now devs idx tp with
      | error e =>
        simp only [hpy, hst] at h
        exact Except.noConfusion h
      | ok p =>
        obtain ⟨devs1, o⟩ := p
        simp only [hpy, hst] at h
        rw [ih devs1 (acc ++ o.toList)
          (fun q hq => hs q (List.mem_cons_of_mem tp hq)) h j]
        exact updateStep_frame hst s (hs tp (List.mem_cons_self tp rest)).1
          (hs tp (List.mem_cons_self tp rest)).2 j

theorem getElem?_set_self_of_lt {α : Type} {l : List α} {i : Nat} {a : α}
    (h : i < l.length) : (l.set i a)[i]? = some a := by
  rw [List.getElem?_set_self]
  · simp [h]

theorem getAt_some {devs : List FlexDevice} {j : Nat} {s : String} {x : Int}
    (h : getAt devs j s = some x) :
    ∃ d, devs[j]? = some d ∧ d.get s = some x := by
  unfold getAt at h
  cases hd : devs[j]? with
  | none =>
    rw [hd] at h
    simp only [Option.none_bind] at h
    exact Option.noConfusion h
  | some d =>
    rw [hd] at h
    simp only [Option.some_bind] at h
    exact ⟨d, rfl, h⟩

theorem updateLoop_stable {ty : String} {id : Nat} {now : Int} {idx : Nat} :
    ∀ (tps : List (String × Bool)) (devs : List FlexDevice)
      (acc : List ChangeNote),
      pyIndex devs.length ((id : Int) - 1) = some idx →
      (∀ p ∈ tps, getAt devs idx p.1 = some (encodeB p.2)) →
      updateLoop ty id now tps devs acc = Except.ok (devs, acc) := by
  intro tps
  induction tps with
  | nil => intro devs acc _ _; rw [updateLoop]
  | cons tp rest ih =>
    obtain ⟨t, v⟩ := tp
    intro devs acc hpy hall
    obtain ⟨dev, hdev, hprev⟩ := getAt_some (hall (t, v) (List.mem_cons_self _ _))
    rw [updateLoop]
    simp only [hpy]
    rw [updateStep_ok_of ty id now v hdev hprev, if_pos rfl]
    simp only [Option.toList_none, List.append_nil]
    exact ih devs acc hpy (fun q hq => hall q (List.mem_cons_of_mem _ hq))

theorem updateLoop_establishes {ty : String} {id : Nat} {now : Int} {idx : Nat} :
    ∀ (tps : List (String × Bool)) (devs : List FlexDevice)
      (acc : List ChangeNote) {devs2 : List FlexDevice} {acc2 : List ChangeNote},
      (tps.map Prod.fst).Nodup →
      (∀ p ∈ tps, ∀ q ∈ tps, p.1 ≠ q.1 ++ "_time") →
      pyIndex devs.length ((id : Int) - 1) = some idx →
      updateLoop ty id now tps devs acc = Except.ok (devs2, acc2) →
      ∀ p ∈ tps, getAt devs2 idx p.1 = some (encodeB p.2) := by
  intro tps
  induction tps with
  | nil => intro devs acc devs2 acc2 _ _ _ _ p hp; exact absurd hp (by simp)
  | cons tp rest ih =>
    intro devs acc devs2 acc2 hnd hsep hpy h p hp
    rw [updateLoop] at h
    cases hst : updateStep ty id now devs idx tp with
    | error e =>
      simp only [hpy, hst] at h
      exact Except.noConfusion h
    | ok q =>
      obtain ⟨devs1, o⟩ := q
      simp only [hpy, hst] at h
      have hframe : ∀ q2 ∈ rest, tp.1 ≠ q2.1 ∧ tp.1 ≠ q2.1 ++ "_time" := by
        intro q2 hq2
        constructor
        · intro he
          have h1 := List.nodup_cons.mp hnd
          exact h1.1 (he ▸ List.mem_map_of_mem Prod.fst hq2)
        · exact hsep tp (List.mem_cons_self _ _) q2 (List.mem_cons_of_mem _ hq2)
      rcases List.mem_cons.mp hp with hp1 | hp1
      · subst hp1
        have hafter : getAt devs1 idx p.1 = some (encodeB p.2) := by
          obtain ⟨dev, prev, hdev, hprev, hcase⟩ := updateStep_shape hst
          rcases hcase with ⟨heq, h2, _⟩ | ⟨_, h2, _⟩
          · rw [h2, getAt_eq hdev, hprev, heq]
          · rw [h2, getAt_eq (getElem?_set_self_of_lt (getElem?_lt hdev))]
            exact flex_get_set_value dev p.1 (encodeB p.2) now
        rw [updateLoop_frame p.1 rest devs1 (acc ++ o.toList) hframe h idx]
        exact hafter
      · have hpy1 : pyIndex devs1.length ((id : Int) - 1) = some idx := by
          rw [updateStep_length hst]; exact hpy
        exact ih devs1 (acc ++ o.toList) (List.nodup_cons.mp hnd).2
          (fun a ha b hb =>
            hsep a (List.mem_cons_of_mem _ ha) b (List.mem_cons_of_mem _ hb))
          hpy1 h p hp1

theorem updateLoop_fresh {ty : String} {id : Nat} {now : Int} {idx : Nat} :
    ∀ (tps : List (String × Bool)) (devs : List FlexDevice)
      (acc : List ChangeNote),
      (tps.map Prod.fst).Nodup →
      (∀ p ∈ tps, ∀ q ∈ tps, p.1 ≠ q.1 ++ "_time") →
      pyIndex devs.length ((id : Int) - 1) = some idx →
      (∀ p ∈ tps, getAt devs idx p.1 = some (-1)) →
      ∃ devs2, updateLoop ty id now tps devs acc = Except.ok (devs2, acc) := by
  intro tps
  induction tps with
  | nil => intro devs acc _ _ _ _; exact ⟨devs, by rw [updateLoop]⟩
  | cons tp rest ih =>
    obtain ⟨t, v⟩ := tp
    intro devs acc hnd hsep hpy hall
    obtain ⟨dev, hdev, hprev⟩ := getAt_some (hall (t, v) (List.mem_cons_self _ _))
    have hst : updateStep ty id now devs idx (t, v) =
        Except.ok (devs.set idx (dev.set t (encodeB v) now), Option.none) := by
      rw [updateStep_ok_of ty id now v hdev hprev,
        if_neg (Ne.symm (encodeB_ne_neg_one v)), if_pos rfl]
    have hpy1 : pyIndex (devs.set idx (dev.set t (encodeB v) now)).length
        ((id : Int) - 1) = some idx := by
      rw [List.length_set]; exact hpy
    have hall1 : ∀ q ∈ rest,
        getAt (devs.set idx (dev.set t (encodeB v) now)) idx q.1 = some (-1) := by
      intro q hq
      rw [updateStep_frame hst q.1 ?h1 ?h2 idx]
      · exact hall q (List.mem_cons_of_mem _ hq)
      case h1 =>
        intro he
        have h1 := List.nodup_cons.mp hnd
        exact h1.1 (he ▸ List.mem_map_of_mem Prod.fst hq)
      case h2 =>
        exact hsep q (List.mem_cons_of_mem _ hq) (t, v) (List.mem_cons_self _ _)
    obtain ⟨devs2, hrest⟩ := ih (devs.set idx (dev.set t (encodeB v) now))
      acc (List.nodup_cons.mp hnd).2
      (fun a ha b hb =>
        hsep a (List.mem_cons_of_mem _ ha) b (List.mem_cons_of_mem _ hb))
      hpy1 hall1
    refine ⟨devs2, ?_⟩
    rw [updateLoop]
    simp only [hpy, hst]
    simpa using hrest

/-! ## Invariant: a topic timestamp is -1 exactly while its value is -1 -/

/-- For every declared topic of the device, the stored value is the initial -1
exactly when the stored timestamp is the initial -1. -/
def DevInv (dtopics : List String) (d : FlexDevice) : Prop :=
  ∀ t ∈ dtopics, (d.get t = some (-1) ↔ d.get (t ++ "_time") = some (-1))

/-- DevInv for every zone device and every partition device of a bank. -/
def TimeInv (b : Bank) : Prop :=
  (∀ d ∈ b.zn, DevInv ZONE_TOPICS d) ∧ (∀ d ∈ b.pa, DevInv PARTITION_TOPICS d)

theorem DevInv_after_set {dtopics : List String}
    (hfree : ∀ a ∈ dtopics, ∀ b ∈ dtopics, a ≠ b ++ "_time")
    {d : FlexDevice} (hd : DevInv dtopics d) {k : String} (hk : k ∈ dtopics)
    (v : Bool) {now : Int} (hnow : 0 ≤ now) :
    DevInv dtopics (FlexDevice.set d k (encodeB v) now) := by
  intro t ht
  by_cases hkt : t = k
  · subst hkt
    rw [flex_get_set_value, flex_get_set_time]
    constructor
    · intro he
      exact absurd (Option.some.inj he) (encodeB_ne_neg_one v)
    · intro he
      have : now = -1 := Option.some.inj he
      omega
  · rw [flex_get_set_other d k (encodeB v) now t hkt (hfree t ht k hk),
      flex_get_set_other d k (encodeB v) now (t ++ "_time") ?h1 ?h2]
    · exact hd t ht
    case h1 =>
      intro he
      exact hfree k hk t ht he.symm
    case h2 =>
      intro he
      exact hkt (str_append_cancel he)

theorem updateLoop_devinv {ty : String} {id : Nat} {now : Int}
    {dtopics : List String}
    (hfree : ∀ a ∈ dtopics, ∀ b ∈ dtopics, a ≠ b ++ "_time")
    (hnow : 0 ≤ now) :
    ∀ (tps : List (String × Bool)) (devs : List FlexDevice)
      (acc : List ChangeNote) {devs2 : List FlexDevice} {acc2 : List ChangeNote},
      (∀ p ∈ tps, p.1 ∈ dtopics) →
      updateLoop ty id now tps devs acc = Except.ok (devs2, acc2) →
      (∀ d ∈ devs, DevInv dtopics d) →
      ∀ d ∈ devs2, DevInv dtopics d := by
  intro tps
  induction tps with
  | nil =>
    intro devs acc devs2 acc2 _ h hinv
    rw [updateLoop] at h
    simp only [Except.ok.injEq, Prod.mk.injEq] at h
    rw [← h.1]
    exact hinv
  | cons tp rest ih =>
    intro devs acc devs2 acc2 hkeys h hinv
    rw [updateLoop] at h
    cases hpy : pyIndex devs.length ((id : Int) - 1) with
    | none =>
      simp only [hpy] at h
      exact Except.noConfusion h
    | some idx =>
      cases hst : updateStep ty id now devs idx tp with
      | error e =>
        simp only [hpy, hst] at h
        exact Except.noConfusion h
      | ok q =>
        obtain ⟨devs1, o⟩ := q
        simp only [hpy, hst] at h
        refine ih devs1 (acc ++ o.toList)
          (fun a ha => hkeys a (List.mem_cons_of_mem _ ha)) h ?_
        obtain ⟨dev, prev, hdev, hprev, hcase⟩ := updateStep_shape hst
        rcases hcase with ⟨_, h2, _⟩ | ⟨_, h2, _⟩
        · rw [h2]; exact hinv
        · rw [h2]
          intro d hmem
          rcases List.mem_or_eq_of_mem_set hmem with hm | hm
          · exact hinv d hm
          · rw [hm]
            exact DevInv_after_set hfree (hinv dev (List.getElem?_mem hdev))
              (hkeys tp (List.mem_cons_self _ _)) tp.2 hnow

/-! ## Bank and category-table lemmas -/

theorem ty_of_event_types {ty : String} {tp : List String}
    (h : NX_EVENT_TYPES ty = some tp) :
    (ty = "ZN" ∧ tp = ZONE_TOPICS) ∨ (ty = "PA" ∧ tp = PARTITION_TOPICS) := by
  unfold NX_EVENT_TYPES at h
  by_cases h1 : ty = "ZN"
  · rw [if_pos h1] at h
    exact Or.inl ⟨h1, (Option.some.inj h).symm⟩
  · rw [if_neg h1] at h
    by_cases h2 : ty = "PA"
    · rw [if_pos h2] at h
      exact Or.inr ⟨h2, (Option.some.inj h).symm⟩
    · rw [if_neg h2] at h
      exact Option.noConfusion h

theorem ty_of_max_devices {ty : String} {mx : Nat}
    (h : NX_MAX_DEVICES ty = some mx) :
    (ty = "ZN" ∧ mx = 48) ∨ (ty = "PA" ∧ mx = 2) := by
  unfold NX_MAX_DEVICES at h
  by_cases h1 : ty = "ZN"
  · rw [if_pos h1] at h
    exact Or.inl ⟨h1, (Option.some.inj h).symm⟩
  · rw [if_neg h1] at h
    by_cases h2 : ty = "PA"
    · rw [if_pos h2] at h
      exact Or.inr ⟨h2, (Option.some.inj h).symm⟩
    · rw [if_neg h2] at h
      exact Option.noConfusion h

theorem bank_put_get {b : Bank} {ty : String} {devs : List FlexDevice}
    (h : b.get? ty = some devs) : b.put ty devs = b := by
  unfold Bank.get? at h
  unfold Bank.put
  by_cases h1 : ty = "ZN"
  · rw [if_pos h1] at h ⊢
    rw [← Option.some.inj h]
  · rw [if_neg h1] at h ⊢
    by_cases h2 : ty = "PA"
    · rw [if_pos h2] at h ⊢
      rw [← Option.some.inj h]
    · rw [if_neg h2]

theorem bank_get_put {b : Bank} {ty : String} (devs : List FlexDevice)
    (h : ty = "ZN" ∨ ty = "PA") : (b.put ty devs).get? ty = some devs := by
  unfold Bank.put Bank.get?
  rcases h with h | h <;> subst h <;> simp

/-! ## Concrete facts about the topic tables -/

theorem zone_topics_time_free :
    ∀ a ∈ ZONE_TOPICS, ∀ b ∈ ZONE_TOPICS, a ≠ b ++ "_time" := by decide

theorem partition_topics_time_free :
    ∀ a ∈ PARTITION_TOPICS, ∀ b ∈ PARTITION_TOPICS, a ≠ b ++ "_time" := by
  decide

theorem zone_topics_time_time_free :
    ∀ a ∈ ZONE_TOPICS, ∀ b ∈ ZONE_TOPICS, a ≠ b ++ "_time" ++ "_time" := by
  decide

theorem partition_topics_time_time_free :
    ∀ a ∈ PARTITION_TOPICS, ∀ b ∈ PARTITION_TOPICS,
      a ≠ b ++ "_time" ++ "_time" := by decide

/-! ## Update-level lemmas -/

theorem bank_always_get (bank : Bank) {ty : String}
    (h : ty = "ZN" ∨ ty = "PA") : ∃ devs, bank.get? ty = some devs := by
  rcases h with h | h <;> subst h <;> exact ⟨_, rfl⟩

theorem update_id_over {bank : Bank} {ev : StateEvent} {now : Int} {mx : Nat}
    (hmx : NX_MAX_DEVICES ev.type = some mx) (hgt : mx < ev.id) :
    update bank ev now = Except.ok (bank, []) := by
  unfold update
  simp only [hmx]
  rw [if_neg (by omega)]

theorem update_single {bank : Bank} {ty : String} {mx id : Nat}
    {devs : List FlexDevice} {dev : FlexDevice} {t : String} {prev : Int}
    (v : Bool) (now : Int)
    (hmx : NX_MAX_DEVICES ty = some mx)
    (hid1 : 1 ≤ id) (hid2 : id ≤ mx)
    (hdevs : bank.get? ty = some devs)
    (hlen : devs.length = mx)
    (hdev : devs[id - 1]? = some dev)
    (hprev : dev.get t = some prev) :
    update bank ⟨ty, id, [(t, v)]⟩ now =
      if prev = encodeB v then Except.ok (bank, [])
      else
        Except.ok
          (bank.put ty (devs.set (id - 1) (dev.set t (encodeB v) now)),
           if prev = -1 then [] else [⟨ty, id, t, v, now⟩]) := by
  have hpy : pyIndex devs.length ((id : Int) - 1) = some (id - 1) := by
    rw [hlen]
    exact pyIndex_pos mx id hid1 hid2
  unfold update
  simp only [hmx]
  rw [if_pos hid2]
  simp only [hdevs]
  rw [updateLoop]
  simp only [hpy]
  rw [updateStep_ok_of ty id now v hdev hprev]
  by_cases hp : prev = encodeB v
  · rw [if_pos hp, if_pos hp]
    simp only [updateLoop, Option.toList_none, List.append_nil,
      bank_put_get hdevs]
  · rw [if_neg hp, if_neg hp]
    by_cases hm : prev = -1
    · rw [if_pos hm, if_pos hm]
      simp only [updateLoop, Option.toList_none, List.append_nil]
    · rw [if_neg hm, if_neg hm]
      simp only [updateLoop, Option.toList_some, List.nil_append]

theorem update_fresh_core {ev : StateEvent} {dtopics : List String} {n : Nat}
    (now : Int)
    (hmx : NX_MAX_DEVICES ev.type = some n)
    (hget : mkBank.get? ev.type = some (List.replicate n (initState dtopics)))
    (hty2 : ev.type = "ZN" ∨ ev.type = "PA")
    (hfree : ∀ a ∈ dtopics, ∀ b ∈ dtopics, a ≠ b ++ "_time")
    (hid1 : 1 ≤ ev.id) (hid2 : ev.id ≤ n)
    (hkeys : ∀ p ∈ ev.topics, p.1 ∈ dtopics)
    (hnd : (ev.topics.map Prod.fst).Nodup) :
    ∃ b2, update mkBank ev now = Except.ok (b2, []) ∧
      ∀ p ∈ ev.topics, valueAt b2 ev.type ev.id p.1 = some (encodeB p.2) := by
  have hsep : ∀ p ∈ ev.topics, ∀ q ∈ ev.topics, p.1 ≠ q.1 ++ "_time" :=
    fun p hp q hq => hfree p.1 (hkeys p hp) q.1 (hkeys q hq)
  have hpy : pyIndex (List.replicate n (initState dtopics)).length
      ((ev.id : Int) - 1) = some (ev.id - 1) := by
    rw [List.length_replicate]
    exact pyIndex_pos n ev.id hid1 hid2
  have hall : ∀ p ∈ ev.topics,
      getAt (List.replicate n (initState dtopics)) (ev.id - 1) p.1 =
        some (-1) := by
    intro p hp
    rw [getAt_eq (getElem?_replicate_lt (by omega))]
    show dictGet (initState dtopics) p.1 = some (-1)
    rw [dictGet_initState, if_pos (mem_initKeys.mpr (Or.inl (hkeys p hp)))]
  obtain ⟨devs2, hloop⟩ :=
    @updateLoop_fresh ev.type ev.id now (ev.id - 1) ev.topics
      (List.replicate n (initState dtopics)) [] hnd hsep hpy hall
  refine ⟨mkBank.put ev.type devs2, ?_, ?_⟩
  · unfold update
    simp only [hmx]
    rw [if_pos hid2]
    simp only [hget, hloop]
  · intro p hp
    have hval := updateLoop_establishes ev.topics
      (List.replicate n (initState dtopics)) [] hnd hsep hpy hloop p hp
    unfold valueAt
    rw [bank_get_put devs2 hty2]
    simp only [Option.some_bind]
    exact hval

theorem update_fresh {ev : StateEvent} {tp : List String} {mx : Nat} (now : Int)
    (hty : NX_EVENT_TYPES ev.type = some tp)
    (hmx : NX_MAX_DEVICES ev.type = some mx)
    (hid1 : 1 ≤ ev.id) (hid2 : ev.id ≤ mx)
    (hkeys : ∀ p ∈ ev.topics, p.1 ∈ tp)
    (hnd : (ev.topics.map Prod.fst).Nodup) :
    ∃ b2, update mkBank ev now = Except.ok (b2, []) ∧
      ∀ p ∈ ev.topics, valueAt b2 ev.type ev.id p.1 = some (encodeB p.2) := by
  rcases ty_of_event_types hty with ⟨h1, h2⟩ | ⟨h1, h2⟩
  · have hmxv : mx = 48 := by
      rcases ty_of_max_devices hmx with ⟨_, h⟩ | ⟨hq, _⟩
      · exact h
      · exact absurd (h1.symm.trans hq) (by decide)
    refine update_fresh_core now hmx ?_ (Or.inl h1)
      zone_topics_time_free hid1 (hmxv ▸ hid2) (h2 ▸ hkeys) hnd
    rw [h1, hmxv]
    rfl
  · have hmxv : mx = 2 := by
      rcases ty_of_max_devices hmx with ⟨hq, _⟩ | ⟨_, h⟩
      · exact absurd (h1.symm.trans hq) (by decide)
      · exact h
    refine update_fresh_core now hmx ?_ (Or.inr h1)
      partition_topics_time_free hid1 (hmxv ▸ hid2) (h2 ▸ hkeys) hnd
    rw [h1, hmxv]
    rfl

theorem update_twice {bank b1 : Bank} {ev : StateEvent} {now1 now2 : Int}
    {ns : List ChangeNote}
    (hnd : (ev.topics.map Prod.fst).Nodup)
    (hsep : ∀ p ∈ ev.topics, ∀ q ∈ ev.topics, p.1 ≠ q.1 ++ "_time")
    (h1 : update bank ev now1 = Except.ok (b1, ns)) :
    update b1 ev now2 = Except.ok (b1, []) := by
  unfold update at h1 ⊢
  cases hmx : NX_MAX_DEVICES ev.type with
  | none =>
    simp only [hmx] at h1
    exact Except.noConfusion h1
  | some mx =>
    simp only [hmx] at h1 ⊢
    by_cases hle : ev.id ≤ mx
    · rw [if_pos hle] at h1 ⊢
      have hty : ev.type = "ZN" ∨ ev.type = "PA" := by
        rcases ty_of_max_devices hmx with ⟨h, _⟩ | ⟨h, _⟩
        exacts [Or.inl h, Or.inr h]
      obtain ⟨devs, hdevs⟩ := bank_always_get bank hty
      simp only [hdevs] at h1
      cases hloop : updateLoop ev.type ev.id now1 ev.topics devs [] with
      | error e =>
        simp only [hloop] at h1
        exact Except.noConfusion h1
      | ok q =>
        obtain ⟨devs2, notes⟩ := q
        simp only [hloop, Except.ok.injEq, Prod.mk.injEq] at h1
        obtain ⟨hb1, hns⟩ := h1
        rw [← hb1]
        simp only [bank_get_put devs2 hty]
        cases htps : ev.topics with
        | nil =>
          have heq : updateLoop ev.type ev.id now2 [] devs2 [] =
              Except.ok (devs2, []) := by
            rw [updateLoop]
          simp only [heq]
          rw [bank_put_get (bank_get_put devs2 hty)]
        | cons tp rest =>
          rw [htps] at hnd hsep hloop
          cases hpy : pyIndex devs.length ((ev.id : Int) - 1) with
          | none =>
            exfalso
            rw [updateLoop] at hloop
            simp only [hpy] at hloop
            exact Except.noConfusion hloop
          | some idx =>
            have hlen := updateLoop_length (tp :: rest) devs [] hloop
            have hall := updateLoop_establishes (tp :: rest) devs [] hnd hsep
              hpy hloop
            have hpy2 : pyIndex devs2.length ((ev.id : Int) - 1) = some idx := by
              rw [hlen]
              exact hpy
            have hstab := @updateLoop_stable ev.type ev.id now2 idx
              (tp :: rest) devs2 [] hpy2 hall
            simp only [hstab]
            rw [bank_put_get (bank_get_put devs2 hty)]
    · rw [if_neg hle] at h1
      simp only [Except.ok.injEq, Prod.mk.injEq] at h1
      rw [← h1.1, if_neg hle]

theorem update_timeinv {bank b2 : Bank} {ev : StateEvent} {now : Int}
    {tp : List String} {ns : List ChangeNote}
    (hty : NX_EVENT_TYPES ev.type = some tp)
    (hkeys : ∀ p ∈ ev.topics, p.1 ∈ tp)
    (hnow : 0 ≤ now)
    (h : update bank ev now = Except.ok (b2, ns))
    (hinv : TimeInv bank) : TimeInv b2 := by
  unfold update at h
  cases hmx : NX_MAX_DEVICES ev.type with
  | none =>
    simp only [hmx] at h
    exact Except.noConfusion h
  | some mx =>
    simp only [hmx] at h
    by_cases hle : ev.id ≤ mx
    · rw [if_pos hle] at h
      rcases ty_of_event_types hty with ⟨h1, h2⟩ | ⟨h1, h2⟩
      · have hdevs : bank.get? ev.type = some bank.zn := by
          rw [h1]
          rfl
        simp only [hdevs] at h
        cases hloop : updateLoop ev.type ev.id now ev.topics bank.zn [] with
        | error e =>
          simp only [hloop] at h
          exact Except.noConfusion h
        | ok q =>
          obtain ⟨devs2, notes⟩ := q
          simp only [hloop, Except.ok.injEq, Prod.mk.injEq] at h
          obtain ⟨hb2, _⟩ := h
          rw [← hb2, h1]
          constructor
          · show ∀ d ∈ devs2, DevInv ZONE_TOPICS d
            exact updateLoop_devinv zone_topics_time_free hnow ev.topics
              bank.zn [] (fun p hp => h2 ▸ hkeys p hp) hloop hinv.1
          · show ∀ d ∈ bank.pa, DevInv PARTITION_TOPICS d
            exact hinv.2
      · have hdevs : bank.get? ev.type = some bank.pa := by
          rw [h1]
          rfl
        simp only [hdevs] at h
        cases hloop : updateLoop ev.type ev.id now ev.topics bank.pa [] with
        | error e =>
          simp only [hloop] at h
          exact Except.noConfusion h
        | ok q =>
          obtain ⟨devs2, notes⟩ := q
          simp only [hloop, Except.ok.injEq, Prod.mk.injEq] at h
          obtain ⟨hb2, _⟩ := h
          rw [← hb2, h1]
          constructor
          · show ∀ d ∈ bank.zn, DevInv ZONE_TOPICS d
            exact hinv.1
          · show ∀ d ∈ devs2, DevInv PARTITION_TOPICS d
            exact updateLoop_devinv partition_topics_time_free hnow ev.topics
              bank.pa [] (fun p hp => h2 ▸ hkeys p hp) hloop hinv.2
    · rw [if_neg hle] at h
      simp only [Except.ok.injEq, Prod.mk.injEq] at h
      rw [← h.1]
      exact hinv

/-! ## Lemmas about get_status -/

theorem get_status_not_running (bank : Bank) (ty : String) (id : Int)
    (topic : String) :
    get_status false bank ty id topic = GSResult.connectionError := rfl

theorem get_status_unknown_ty {ty : String} (bank : Bank) (id : Int)
    (topic : String) (h : NX_EVENT_TYPES ty = Option.none) :
    get_status true bank ty id topic = GSResult.getStatusError := by
  unfold get_status
  rw [if_pos rfl]
  simp only [h]

theorem get_status_id_over {ty : String} {tp : List String} {mx : Nat}
    (bank : Bank) (id : Int) (topic : String)
    (hty : NX_EVENT_TYPES ty = some tp) (hmx : NX_MAX_DEVICES ty = some mx)
    (hgt : (mx : Int) < id) :
    get_status true bank ty id topic = GSResult.getStatusError := by
  unfold get_status
  rw [if_pos rfl]
  simp only [hty, hmx]
  rw [if_neg (by omega)]

theorem get_status_reads {ty topic : String} {tp : List String} {mx : Nat}
    {bank : Bank} {id : Int} {devs : List FlexDevice} {dev : FlexDevice}
    (hty : NX_EVENT_TYPES ty = some tp) (hmx : NX_MAX_DEVICES ty = some mx)
    (h1 : 1 ≤ id) (h2 : id ≤ (mx : Int))
    (hdevs : bank.get? ty = some devs) (hlen : devs.length = mx)
    (hdev : devs[(id - 1).toNat]? = some dev) :
    get_status true bank ty id topic =
      (match dev.get topic with
       | Option.none => GSResult.raisesKey
       | some v =>
         match dev.get (topic ++ "_time") with
         | Option.none => GSResult.raisesKey
         | some t => GSResult.ok v t) := by
  have hpy : pyIndex devs.length (id - 1) = some (id - 1).toNat :=
    pyIndex_of_nonneg devs.length (id - 1) (by omega) (by rw [hlen]; omega)
  unfold get_status
  rw [if_pos rfl]
  simp only [hty, hmx]
  rw [if_pos h2]
  simp only [hdevs, hpy, hdev]

theorem mkBank_get_replicate {ty : String} {tp : List String} {mx : Nat}
    (hty : NX_EVENT_TYPES ty = some tp) (hmx : NX_MAX_DEVICES ty = some mx) :
    mkBank.get? ty = some (List.replicate mx (initState tp)) := by
  rcases ty_of_event_types hty with ⟨h1, h2⟩ | ⟨h1, h2⟩
  · have : mx = 48 := by
      rcases ty_of_max_devices hmx with ⟨_, h⟩ | ⟨hq, _⟩
      · exact h
      · exact absurd (h1.symm.trans hq) (by decide)
    subst h1 h2 this
    rfl
  · have : mx = 2 := by
      rcases ty_of_max_devices hmx with ⟨hq, _⟩ | ⟨_, h⟩
      · exact absurd (h1.symm.trans hq) (by decide)
      · exact h
    subst h1 h2 this
    rfl

theorem get_status_fresh {ty topic : String} {tp : List String} {mx : Nat}
    {id : Int}
    (hty : NX_EVENT_TYPES ty = some tp) (hmx : NX_MAX_DEVICES ty = some mx)
    (h1 : 1 ≤ id) (h2 : id ≤ (mx : Int)) (hmem : topic ∈ tp) :
    get_status true mkBank ty id topic = GSResult.ok (-1) (-1) := by
  have hdev : (List.replicate mx (initState tp))[(id - 1).toNat]? =
      some (initState tp) :=
    getElem?_replicate_lt (by omega)
  rw [get_status_reads hty hmx h1 h2 (mkBank_get_replicate hty hmx)
    (List.length_replicate mx (initState tp)) hdev]
  have hv : (initState tp).get topic = some (-1) := by
    show dictGet (initState tp) topic = some (-1)
    rw [dictGet_initState, if_pos (mem_initKeys.mpr (Or.inl hmem))]
  have ht : (initState tp).get (topic ++ "_time") = some (-1) := by
    show dictGet (initState tp) (topic ++ "_time") = some (-1)
    rw [dictGet_initState,
      if_pos (mem_initKeys.mpr (Or.inr ⟨topic, hmem, rfl⟩))]
  simp only [hv, ht]

theorem get_status_bad_topic {ty topic : String} {tp : List String} {mx : Nat}
    {id : Int}
    (hty : NX_EVENT_TYPES ty = some tp) (hmx : NX_MAX_DEVICES ty = some mx)
    (h1 : 1 ≤ id) (h2 : id ≤ (mx : Int)) (hnot : topic ∉ tp)
    (hfree : ∀ a ∈ tp, ∀ b ∈ tp, a ≠ b ++ "_time")
    (hfree2 : ∀ a ∈ tp, ∀ b ∈ tp, a ≠ b ++ "_time" ++ "_time") :
    get_status true mkBank ty id topic = GSResult.raisesKey := by
  have hdev : (List.replicate mx (initState tp))[(id - 1).toNat]? =
      some (initState tp) :=
    getElem?_replicate_lt (by omega)
  rw [get_status_reads hty hmx h1 h2 (mkBank_get_replicate hty hmx)
    (List.length_replicate mx (initState tp)) hdev]
  by_cases hk : topic ∈ initKeys tp
  · rcases mem_initKeys.mp hk with hk1 | ⟨b, hb, hk1⟩
    · exact absurd hk1 hnot
    · have hv : (initState tp).get topic = some (-1) := by
        show dictGet (initState tp) topic = some (-1)
        rw [dictGet_initState, if_pos hk]
      have ht : (initState tp).get (topic ++ "_time") = Option.none := by
        show dictGet (initState tp) (topic ++ "_time") = Option.none
        rw [dictGet_initState, if_neg]
        intro hmem2
        rcases mem_initKeys.mp hmem2 with hm | ⟨c, hc, hm⟩
        · rw [hk1] at hm
          exact hfree2 (b ++ "_time" ++ "_time") hm b hb rfl
        · rw [hk1] at hm
          have hcb : c = b ++ "_time" := str_append_cancel hm.symm
          exact hfree c hc b hb hcb
      simp only [hv, ht]
  · have hv : (initState tp).get topic = Option.none := by
      show dictGet (initState tp) topic = Option.none
      rw [dictGet_initState, if_neg hk]
    simp only [hv]

/-! ## General per-topic characterization of one event application -/

/-- Whether the topic loop of _update emits a callback for one
(topic, newValue) pair, judged against the device list as it stands when the
event arrives: the stored value exists, differs from the new value, and is
not the Unknown marker -1. -/
def topicEmits (devs : List FlexDevice) (idx : Nat) (p : String × Bool) :
    Bool :=
  match getAt devs idx p.1 with
  | some prev => decide (prev ≠ encodeB p.2) && decide (prev ≠ -1)
  | Option.none => false

/-- The per-topic effect of one event application on the stored value and
timestamp of that topic: an unchanged topic keeps both entries untouched,
a changed topic (whether previously Unknown or concrete) gets the new value
stored and the change time stamped. -/
def topicOutcome (devs devs2 : List FlexDevice) (idx : Nat) (now : Int)
    (p : String × Bool) : Prop :=
  (getAt devs idx p.1 = some (encodeB p.2) →
     getAt devs2 idx p.1 = getAt devs idx p.1 ∧
     getAt devs2 idx (p.1 ++ "_time") = getAt devs idx (p.1 ++ "_time")) ∧
  (getAt devs idx p.1 ≠ some (encodeB p.2) →
     getAt devs2 idx p.1 = some (encodeB p.2) ∧
     getAt devs2 idx (p.1 ++ "_time") = some now)

theorem topicEmits_some {devs : List FlexDevice} {idx : Nat} {t : String}
    {prev : Int} (v : Bool) (h : getAt devs idx t = some prev) :
    topicEmits devs idx (t, v) =
      (decide (prev ≠ encodeB v) && decide (prev ≠ -1)) := by
  unfold topicEmits
  simp only [h]

theorem topicEmits_congr {devs1 devs : List FlexDevice} {idx : Nat}
    {p : String × Bool} (h : getAt devs1 idx p.1 = getAt devs idx p.1) :
    topicEmits devs1 idx p = topicEmits devs idx p := by
  unfold topicEmits
  rw [h]

theorem updateLoop_chars {ty : String} {id : Nat} {now : Int} {idx : Nat} :
    ∀ (tps : List (String × Bool)) (devs : List FlexDevice)
      (acc : List ChangeNote),
      (tps.map Prod.fst).Nodup →
      (∀ p ∈ tps, ∀ q ∈ tps, p.1 ≠ q.1 ++ "_time") →
      pyIndex devs.length ((id : Int) - 1) = some idx →
      (∀ p ∈ tps, ∃ prev, getAt devs idx p.1 = some prev) →
      ∃ devs2,
        updateLoop ty id now tps devs acc =
          Except.ok (devs2,
            acc ++ (tps.filter (topicEmits devs idx)).map
              (fun p => ⟨ty, id, p.1, p.2, now⟩)) ∧
        (∀ p ∈ tps, topicOutcome devs devs2 idx now p) ∧
        (∀ s, (∀ p ∈ tps, s ≠ p.1 ∧ s ≠ p.1 ++ "_time") →
           ∀ j, getAt devs2 j s = getAt devs j s) := by
  intro tps
  induction tps with
  | nil =>
    intro devs acc _ _ _ _
    refine ⟨devs, ?_, ?_, ?_⟩
    · rw [updateLoop]
      simp
    · intro p hp
      exact absurd hp (by simp)
    · intro s _ j
      rfl
  | cons tp rest ih =>
    obtain ⟨t, v⟩ := tp
    intro devs acc hnd hsep hpy hok
    obtain ⟨prev, hgp⟩ := hok (t, v) (List.mem_cons_self _ _)
    obtain ⟨dev, hdev, hprev⟩ := getAt_some hgp
    have hne1 : ∀ q ∈ rest, t ≠ q.1 := by
      intro q hq he
      exact (List.nodup_cons.mp hnd).1 (List.mem_map.mpr ⟨q, hq, he.symm⟩)
    have hne2 : ∀ q ∈ rest, t ≠ q.1 ++ "_time" := fun q hq =>
      hsep (t, v) (List.mem_cons_self _ _) q (List.mem_cons_of_mem _ hq)
    have hne3 : ∀ q ∈ rest, t ++ "_time" ≠ q.1 := fun q hq =>
      Ne.symm (hsep q (List.mem_cons_of_mem _ hq) (t, v)
        (List.mem_cons_self _ _))
    have hne4 : ∀ q ∈ rest, t ++ "_time" ≠ q.1 ++ "_time" := fun q hq he =>
      hne1 q hq (str_append_cancel he)
    have hnd2 := (List.nodup_cons.mp hnd).2
    have hsep2 : ∀ p ∈ rest, ∀ q ∈ rest, p.1 ≠ q.1 ++ "_time" :=
      fun a ha b hb =>
        hsep a (List.mem_cons_of_mem _ ha) b (List.mem_cons_of_mem _ hb)
    by_cases hp : prev = encodeB v
    · have hstep : updateStep ty id now devs idx (t, v) =
          Except.ok (devs, Option.none) := by
        rw [updateStep_ok_of ty id now v hdev hprev, if_pos hp]
      obtain ⟨devs2, hloop, hper, hframe⟩ := ih devs acc hnd2 hsep2 hpy
        (fun q hq => hok q (List.mem_cons_of_mem _ hq))
      refine ⟨devs2, ?_, ?_, ?_⟩
      · rw [updateLoop]
        simp only [hpy, hstep, Option.toList_none, List.append_nil]
        have hhead : topicEmits devs idx (t, v) = false := by
          rw [topicEmits_some v hgp]
          simp [hp]
        have hfc : ((t, v) :: rest).filter (topicEmits devs idx) =
            rest.filter (topicEmits devs idx) := by
          rw [List.filter_cons, hhead]
          simp
        rw [hfc]
        exact hloop
      · intro p hp2
        rcases List.mem_cons.mp hp2 with hh | hh
        · subst hh
          constructor
          · intro _
            exact ⟨hframe t (fun q hq => ⟨hne1 q hq, hne2 q hq⟩) idx,
              hframe (t ++ "_time") (fun q hq => ⟨hne3 q hq, hne4 q hq⟩) idx⟩
          · intro hne
            exact absurd (hgp.trans (by rw [hp])) hne
        · exact hper p hh
      · intro s hs j
        exact hframe s (fun q hq => hs q (List.mem_cons_of_mem _ hq)) j
    · have hstep : updateStep ty id now devs idx (t, v) =
          Except.ok (devs.set idx (dev.set t (encodeB v) now),
            if prev = -1 then Option.none
            else some ⟨ty, id, t, v, now⟩) := by
        rw [updateStep_ok_of ty id now v hdev hprev, if_neg hp]
      have hstepframe : ∀ s, s ≠ t → s ≠ t ++ "_time" → ∀ j,
          getAt (devs.set idx (dev.set t (encodeB v) now)) j s =
            getAt devs j s :=
        fun s h1 h2 j => updateStep_frame hstep s h1 h2 j
      have hok1 : ∀ q ∈ rest, ∃ prev2,
          getAt (devs.set idx (dev.set t (encodeB v) now)) idx q.1 =
            some prev2 := by
        intro q hq
        rw [hstepframe q.1 (Ne.symm (hne1 q hq)) (Ne.symm (hne3 q hq)) idx]
        exact hok q (List.mem_cons_of_mem _ hq)
      have hpy1 : pyIndex (devs.set idx (dev.set t (encodeB v) now)).length
          ((id : Int) - 1) = some idx := by
        rw [List.length_set]
        exact hpy
      obtain ⟨devs2, hloop, hper1, hframe1⟩ :=
        ih (devs.set idx (dev.set t (encodeB v) now))
          (acc ++ (if prev = -1 then Option.none
            else some (⟨ty, id, t, v, now⟩ : ChangeNote)).toList)
          hnd2 hsep2 hpy1 hok1
      have hfiltc : rest.filter
            (topicEmits (devs.set idx (dev.set t (encodeB v) now)) idx) =
          rest.filter (topicEmits devs idx) :=
        List.filter_congr (fun q hq => topicEmits_congr
          (hstepframe q.1 (Ne.symm (hne1 q hq)) (Ne.symm (hne3 q hq)) idx))
      have hv1 : getAt (devs.set idx (dev.set t (encodeB v) now)) idx t =
          some (encodeB v) := by
        rw [getAt_eq (getElem?_set_self_of_lt (getElem?_lt hdev))]
        exact flex_get_set_value dev t (encodeB v) now
      have ht1 : getAt (devs.set idx (dev.set t (encodeB v) now)) idx
          (t ++ "_time") = some now := by
        rw [getAt_eq (getElem?_set_self_of_lt (getElem?_lt hdev))]
        exact flex_get_set_time dev t (encodeB v) now
      refine ⟨devs2, ?_, ?_, ?_⟩
      · rw [updateLoop]
        simp only [hpy, hstep]
        rw [hloop, hfiltc]
        by_cases hm : prev = -1
        · have hhead : topicEmits devs idx (t, v) = false := by
            rw [topicEmits_some v hgp]
            simp [hm]
          have hfc : ((t, v) :: rest).filter (topicEmits devs idx) =
              rest.filter (topicEmits devs idx) := by
            rw [List.filter_cons, hhead]
            simp
          rw [hfc, if_pos hm]
          simp
        · have hhead : topicEmits devs idx (t, v) = true := by
            rw [topicEmits_some v hgp]
            simp [hp, hm]
          have hfc : ((t, v) :: rest).filter (topicEmits devs idx) =
              (t, v) :: rest.filter (topicEmits devs idx) := by
            rw [List.filter_cons, hhead]
            simp
          rw [hfc, if_neg hm]
          simp
      · intro p hp2
        rcases List.mem_cons.mp hp2 with hh | hh
        · subst hh
          constructor
          · intro he
            exact absurd (Option.some.inj (hgp.symm.trans he)) hp
          · intro _
            constructor
            · rw [hframe1 t (fun q hq => ⟨hne1 q hq, hne2 q hq⟩) idx]
              exact hv1
            · rw [hframe1 (t ++ "_time")
                (fun q hq => ⟨hne3 q hq, hne4 q hq⟩) idx]
              exact ht1
        · have e1 : getAt (devs.set idx (dev.set t (encodeB v) now)) idx p.1 =
              getAt devs idx p.1 :=
            hstepframe p.1 (Ne.symm (hne1 p hh)) (Ne.symm (hne3 p hh)) idx
          have e2 : getAt (devs.set idx (dev.set t (encodeB v) now)) idx
                (p.1 ++ "_time") = getAt devs idx (p.1 ++ "_time") :=
            hstepframe (p.1 ++ "_time") (Ne.symm (hne2 p hh))
              (fun he => hne1 p hh (str_append_cancel he).symm) idx
          obtain ⟨hu, hc⟩ := hper1 p hh
          constructor
          · intro he
            have h3 := hu (by rw [e1]; exact he)
            exact ⟨h3.1.trans e1, h3.2.trans e2⟩
          · intro hne
            exact hc (by rw [e1]; exact hne)
      · intro s hs j
        rw [hframe1 s (fun q hq => hs q (List.mem_cons_of_mem _ hq)) j]
        exact hstepframe s (hs (t, v) (List.mem_cons_self _ _)).1
          (hs (t, v) (List.mem_cons_self _ _)).2 j

instance {e a : Type} [DecidableEq e] [DecidableEq a] :
    DecidableEq (Except e a) := fun x y =>
  match x, y with
  | Except.error e1, Except.error e2 =>
    if h : e1 = e2 then isTrue (by rw [h])
    else isFalse (fun he => h (Except.error.inj he))
  | Except.error _, Except.ok _ => isFalse (fun he => Except.noConfusion he)
  | Except.ok _, Except.error _ => isFalse (fun he => Except.noConfusion he)
  | Except.ok a1, Except.ok a2 =>
    if h : a1 = a2 then isTrue (by rw [h])
    else isFalse (fun he => h (Except.ok.inj he))

/-! ## Claim theorems -/

/-- C1: State Store change-suppression rule, for every event applied to the
device bank and for each (topic, newValue) in the event. First conjunct, for
arbitrary events on arbitrary banks: the emitted ChangeNotes are exactly one
per (topic, newValue) pair whose stored value differed from a concrete (not
Unknown) boolean — in event order — so an unchanged pair contributes nothing
and a pair changed from Unknown is suppressed; per topic, an unchanged pair
leaves its value and timestamp untouched while a changed pair (Unknown or
concrete) gets the value stored and the change time stamped, and keys not
named by the event are untouched. Second conjunct: the same trichotomy at
single-event granularity, giving the exact update result in each of the three
cases. Third conjunct: applying an event to the fresh DeviceBank (all topics
-1) updates all stored values and yields zero ChangeNotes. -/
theorem C1_change_suppression :
    (∀ (bank : Bank) (ev : StateEvent) (now : Int) (mx : Nat)
       (devs : List FlexDevice),
       NX_MAX_DEVICES ev.type = some mx → 1 ≤ ev.id → ev.id ≤ mx →
       bank.get? ev.type = some devs → devs.length = mx →
       (∀ p ∈ ev.topics, ∃ prev, getAt devs (ev.id - 1) p.1 = some prev) →
       (ev.topics.map Prod.fst).Nodup →
       (∀ p ∈ ev.topics, ∀ q ∈ ev.topics, p.1 ≠ q.1 ++ "_time") →
       ∃ devs2,
         update bank ev now =
           Except.ok (bank.put ev.type devs2,
             (ev.topics.filter (topicEmits devs (ev.id - 1))).map
               (fun p => ⟨ev.type, ev.id, p.1, p.2, now⟩)) ∧
         (∀ p ∈ ev.topics, topicOutcome devs devs2 (ev.id - 1) now p) ∧
         (∀ s, (∀ p ∈ ev.topics, s ≠ p.1 ∧ s ≠ p.1 ++ "_time") →
            ∀ j, getAt devs2 j s = getAt devs j s))
    ∧ (∀ (bank : Bank) (ty : String) (mx id : Nat) (devs : List FlexDevice)
       (dev : FlexDevice) (t : String) (v : Bool) (now prev : Int),
       NX_MAX_DEVICES ty = some mx → 1 ≤ id → id ≤ mx →
       bank.get? ty = some devs → devs.length = mx →
       devs[id - 1]? = some dev → dev.get t = some prev →
       ((prev = encodeB v →
          update bank ⟨ty, id, [(t, v)]⟩ now = Except.ok (bank, []))
        ∧ (prev = -1 →
            update bank ⟨ty, id, [(t, v)]⟩ now =
              Except.ok
                (bank.put ty (devs.set (id - 1) (dev.set t (encodeB v) now)),
                 []))
        ∧ (prev ≠ -1 → prev ≠ encodeB v →
            update bank ⟨ty, id, [(t, v)]⟩ now =
              Except.ok
                (bank.put ty (devs.set (id - 1) (dev.set t (encodeB v) now)),
                 [⟨ty, id, t, v, now⟩]))))
    ∧ (∀ (ev : StateEvent) (tp : List String) (mx : Nat) (now : Int),
        NX_EVENT_TYPES ev.type = some tp → NX_MAX_DEVICES ev.type = some mx →
        1 ≤ ev.id → ev.id ≤ mx →
        (∀ p ∈ ev.topics, p.1 ∈ tp) → (ev.topics.map Prod.fst).Nodup →
        ∃ b2, update mkBank ev now = Except.ok (b2, []) ∧
          ∀ p ∈ ev.topics, valueAt b2 ev.type ev.id p.1 = some (encodeB p.2)) := by
  refine ⟨?_, ?_, ?_⟩
  · intro bank ev now mx devs hmx h1 h2 hdevs hlen hok hnd hsep
    have hpy : pyIndex devs.length ((ev.id : Int) - 1) = some (ev.id - 1) := by
      rw [hlen]
      exact pyIndex_pos mx ev.id h1 h2
    obtain ⟨devs2, hloop, hper, hframe⟩ :=
      @updateLoop_chars ev.type ev.id now (ev.id - 1) ev.topics devs []
        hnd hsep hpy hok
    refine ⟨devs2, ?_, hper, hframe⟩
    unfold update
    simp only [hmx]
    rw [if_pos h2]
    simp only [hdevs, hloop]
    rw [List.nil_append]
  · intro bank ty mx id devs dev t v now prev hmx h1 h2 hdevs hlen hdev hprev
    refine ⟨?_, ?_, ?_⟩
    · intro hp
      rw [update_single v now hmx h1 h2 hdevs hlen hdev hprev, if_pos hp]
    · intro hm
      rw [update_single v now hmx h1 h2 hdevs hlen hdev hprev,
        if_neg (by rw [hm]; exact fun he => encodeB_ne_neg_one v he.symm),
        if_pos hm]
    · intro hm hp
      rw [update_single v now hmx h1 h2 hdevs hlen hdev hprev, if_neg hp,
        if_neg hm]
  · intro ev tp mx now hty hmx h1 h2 hkeys hnd
    exact update_fresh now hty hmx h1 h2 hkeys hnd

/-- Witness for C1 at concrete inputs: the fresh zone-1 device stores -1 for
fault; the event setting fault on a fresh bank updates the store with no
ChangeNote; and on a bank where zone 1 already has fault False and tamper
False, the two-topic event (fault True, tamper False) emits exactly one
ChangeNote — for fault — while tamper is untouched, per the topicOutcome of
each pair. -/
theorem C1_change_suppression_witness :
    (initState ZONE_TOPICS).get "fault" = some (-1) ∧
    (∃ b2, update mkBank ⟨"ZN", 1, [("fault", true)]⟩ 5 = Except.ok (b2, []) ∧
      ∀ p ∈ [("fault", true)], valueAt b2 "ZN" 1 p.1 = some (encodeB p.2)) ∧
    (∃ devs2,
      update
          (bankOf
            (update mkBank ⟨"ZN", 1, [("fault", false), ("tamper", false)]⟩ 1)
            mkBank)
          ⟨"ZN", 1, [("fault", true), ("tamper", false)]⟩ 7 =
        Except.ok
          ((bankOf
              (update mkBank ⟨"ZN", 1, [("fault", false), ("tamper", false)]⟩ 1)
              mkBank).put "ZN" devs2,
           [⟨"ZN", 1, "fault", true, 7⟩]) ∧
      (∀ p ∈ [(("fault" : String), true), ("tamper", false)],
        topicOutcome
          (bankOf
            (update mkBank ⟨"ZN", 1, [("fault", false), ("tamper", false)]⟩ 1)
            mkBank).zn
          devs2 0 7 p)) := by
  refine ⟨by decide, ?_, ?_⟩
  · exact C1_change_suppression.2.2 ⟨"ZN", 1, [("fault", true)]⟩ ZONE_TOPICS
      48 5 (by decide) (by decide) (by decide) (by decide) (by decide)
      (by decide)
  · obtain ⟨devs2, hupd, hper, hframe⟩ :=
      C1_change_suppression.1
        (bankOf
          (update mkBank ⟨"ZN", 1, [("fault", false), ("tamper", false)]⟩ 1)
          mkBank)
        ⟨"ZN", 1, [("fault", true), ("tamper", false)]⟩ 7 48
        (bankOf
          (update mkBank ⟨"ZN", 1, [("fault", false), ("tamper", false)]⟩ 1)
          mkBank).zn
        (by decide) (by decide) (by decide) (by decide) (by decide)
        (by
          intro p hp
          have hp2 : p ∈ [(("fault" : String), true), ("tamper", false)] := hp
          simp only [List.mem_cons, List.not_mem_nil, or_false,
            List.mem_singleton] at hp2
          rcases hp2 with h | h
          · exact ⟨0, by rw [h]; decide⟩
          · exact ⟨0, by rw [h]; decide⟩)
        (by decide) (by decide)
    exact ⟨devs2, hupd, hper⟩

/-- C2 counterexample: feeding the raw line ZN001FttBaillb to a fresh bank
establishes fault as True (the character F is upper case), not False as the
claim states, and the follow-up line ZN001TttBaillb then changes nothing and
emits zero ChangeNotes, not exactly one. -/
theorem C2_end_to_end_counterexample :
    valueAt
        (bankOf (update mkBank (eventOf (decode "ZN001FttBaillb") dummyEvent) 1)
          mkBank) "ZN" 1 "fault" = some 1 ∧
    notesOf
        (update
          (bankOf (update mkBank (eventOf (decode "ZN001FttBaillb") dummyEvent) 1)
            mkBank)
          (eventOf (decode "ZN001TttBaillb") dummyEvent) 2) = [] := by
  decide

/-- C2 amended: with the first line carrying a lower-case f (ZN001fttBaillb),
the first application establishes fault as False with zero ChangeNotes, and
feeding ZN001TttBaillb afterwards changes fault to True and emits exactly one
ChangeNote for Zone 1 fault with value true. -/
theorem C2_end_to_end_amended :
    notesOf (update mkBank (eventOf (decode "ZN001fttBaillb") dummyEvent) 1)
        = [] ∧
    valueAt
        (bankOf (update mkBank (eventOf (decode "ZN001fttBaillb") dummyEvent) 1)
          mkBank) "ZN" 1 "fault" = some 0 ∧
    notesOf
        (update
          (bankOf (update mkBank (eventOf (decode "ZN001fttBaillb") dummyEvent) 1)
            mkBank)
          (eventOf (decode "ZN001TttBaillb") dummyEvent) 2) =
      [⟨"ZN", 1, "fault", true, 2⟩] ∧
    valueAt
        (bankOf
          (update
            (bankOf
              (update mkBank (eventOf (decode "ZN001fttBaillb") dummyEvent) 1)
              mkBank)
            (eventOf (decode "ZN001TttBaillb") dummyEvent) 2) mkBank)
        "ZN" 1 "fault" = some 1 := by
  decide

/-- C3 counterexample: an event with id 0 (below 1) is not discarded: after
device 48 has fault established as False, the id-0 event reaches device 48
through the Python index id-1 = -1, mutates its stored fault to True and emits
a ChangeNote. -/
theorem C3_low_id_counterexample :
    notesOf
        (update (bankOf (update mkBank ⟨"ZN", 48, [("fault", false)]⟩ 1) mkBank)
          ⟨"ZN", 0, [("fault", true)]⟩ 2) = [⟨"ZN", 0, "fault", true, 2⟩] ∧
    valueAt
        (bankOf
          (update (bankOf (update mkBank ⟨"ZN", 48, [("fault", false)]⟩ 1) mkBank)
            ⟨"ZN", 0, [("fault", true)]⟩ 2)
          mkBank) "ZN" 48 "fault" = some 1 := by
  decide

/-- C3 amended: only events whose id exceeds the category maximum are silently
discarded, with no mutation of the bank and no ChangeNote; ids below 1 pass the
guard and are resolved by Python negative indexing instead. -/
theorem C3_out_of_range_amended :
    ∀ (bank : Bank) (ev : StateEvent) (now : Int) (mx : Nat),
      NX_MAX_DEVICES ev.type = some mx → mx < ev.id →
      update bank ev now = Except.ok (bank, []) :=
  fun _ _ _ _ hmx hgt => update_id_over hmx hgt

/-- Witness for C3 at a concrete input: a zone event with id 49 is discarded
whole, leaving the fresh bank untouched and emitting nothing. -/
theorem C3_out_of_range_witness :
    update mkBank ⟨"ZN", 49, [("fault", true)]⟩ 3 = Except.ok (mkBank, []) :=
  C3_out_of_range_amended mkBank ⟨"ZN", 49, [("fault", true)]⟩ 3 48
    (by decide) (by decide)

/-- C4: send passes a 4-digit numeric user code through verbatim and fails on
an unknown name without enqueuing (the local command is never assigned, so the
final read raises UnboundLocalError), but a 6-digit numeric code hits the
source test len(in_command == 6), which applies len() to a bool and raises
TypeError instead of enqueuing the code, contradicting the docstring of send
(a 4 or 6 digit user code). -/
theorem C4_send_code_bug :
    send "USA" "1234" = SendResult.enqueued "1234" ∧
    send "USA" "123456" = SendResult.typeError ∧
    send "AUNZ" "123456" = SendResult.typeError ∧
    send "USA" "unknownCmd" = SendResult.unboundLocal := by
  decide

/-- C5 counterexample: the claim computes the partition query from the Zone
maximum of the category table (48), predicting Q049 for partition 1, but
the code uses the fixed firmware base 192 and enqueues Q193. -/
theorem C5_partition_query_counterexample :
    direct_query "PA" 1 = some "Q193" ∧
    "Q" ++ zfill 3 (toString (48 + 1)) = "Q049" ∧
    ("Q193" : String) ≠ "Q049" := by
  decide

/-- C5 amended: for an in-range zone id n the direct query is Q followed by n
zero-padded to 3 digits; for an in-range partition id n it is Q followed by
str(192 + n), where 192 is the fixed firmware zone-query base (Q001..Q192),
not the configured zone maximum 48, and the partition number is not
zero-padded (in range it already has 3 digits). -/
theorem C5_direct_query_amended :
    ∀ n : Nat,
      (1 ≤ n → n ≤ 48 →
        direct_query "ZN" n = some ("Q" ++ zfill 3 (toString n))) ∧
      (1 ≤ n → n ≤ 2 →
        direct_query "PA" n = some ("Q" ++ toString (192 + n))) := by
  intro n
  constructor
  · intro _ h2
    simp [direct_query, NX_EVENT_TYPES, NX_MAX_DEVICES, h2]
  · intro _ h2
    simp [direct_query, NX_EVENT_TYPES, NX_MAX_DEVICES, h2]

/-- Witness for C5 at concrete inputs: zone 7 gives Q007 and partition 2
gives Q194. -/
theorem C5_direct_query_witness :
    1 ≤ 7 ∧ direct_query "ZN" 7 = some ("Q" ++ zfill 3 (toString 7)) ∧
    direct_query "PA" 2 = some ("Q" ++ toString (192 + 2)) :=
  ⟨by decide, (C5_direct_query_amended 7).1 (by decide) (by decide),
   (C5_direct_query_amended 2).2 (by decide) (by decide)⟩

/-- C6 counterexample: with an active session, get_status for zone id 0 (out
of the range [1, 48]) does not raise the invalid-query error: the guard only
checks the upper bound and Python indexing resolves id-1 = -1 to the last
device, so the call returns its stored pair normally. -/
theorem C6_zero_id_counterexample :
    get_status true mkBank "ZN" 0 "fault" = GSResult.ok (-1) (-1) := by
  decide

/-- C6 amended: get_status raises the not-connected error when no session is
active; with an active session it raises the invalid-query error exactly when
the category is unknown or the id exceeds the category maximum; for id in
[1, max] it returns the stored (value, timestamp) pair read from the bank
(the embedding is a pure read, so no state is mutated). Ids below 1 are not
rejected. -/
theorem C6_get_status_amended :
    ∀ (bank : Bank) (ty : String) (id : Int) (topic : String),
      get_status false bank ty id topic = GSResult.connectionError ∧
      (NX_EVENT_TYPES ty = Option.none →
        get_status true bank ty id topic = GSResult.getStatusError) ∧
      (∀ (tp : List String) (mx : Nat),
        NX_EVENT_TYPES ty = some tp → NX_MAX_DEVICES ty = some mx →
        (mx : Int) < id →
        get_status true bank ty id topic = GSResult.getStatusError) ∧
      (∀ (tp : List String) (mx : Nat) (devs : List FlexDevice)
         (dev : FlexDevice) (v t : Int),
        NX_EVENT_TYPES ty = some tp → NX_MAX_DEVICES ty = some mx →
        1 ≤ id → id ≤ (mx : Int) →
        bank.get? ty = some devs → devs.length = mx →
        devs[(id - 1).toNat]? = some dev → dev.get topic = some v →
        dev.get (topic ++ "_time") = some t →
        get_status true bank ty id topic = GSResult.ok v t) := by
  intro bank ty id topic
  refine ⟨get_status_not_running bank ty id topic, ?_, ?_, ?_⟩
  · intro h
    exact get_status_unknown_ty bank id topic h
  · intro tp mx hty hmx hgt
    exact get_status_id_over bank id topic hty hmx hgt
  · intro tp mx devs dev v t hty hmx h1 h2 hdevs hlen hdev hv ht
    rw [get_status_reads hty hmx h1 h2 hdevs hlen hdev]
    simp only [hv, ht]

/-- Witness for C6 at concrete inputs: not connected, unknown category,
id above the maximum, and a normal in-range read on the fresh bank. -/
theorem C6_get_status_witness :
    get_status false mkBank "ZN" 1 "fault" = GSResult.connectionError ∧
    get_status true mkBank "XX" 1 "fault" = GSResult.getStatusError ∧
    get_status true mkBank "ZN" 49 "fault" = GSResult.getStatusError ∧
    get_status true mkBank "ZN" 1 "fault" = GSResult.ok (-1) (-1) :=
  ⟨(C6_get_status_amended mkBank "ZN" 1 "fault").1,
   (C6_get_status_amended mkBank "XX" 1 "fault").2.1 (by decide),
   (C6_get_status_amended mkBank "ZN" 49 "fault").2.2.1 ZONE_TOPICS 48
     (by decide) (by decide) (by decide),
   (C6_get_status_amended mkBank "ZN" 1 "fault").2.2.2 ZONE_TOPICS 48
     (List.replicate 48 (initState ZONE_TOPICS)) (initState ZONE_TOPICS)
     (-1) (-1) (by decide) (by decide) (by decide) (by decide) (by decide)
     (by decide) (by decide) (by decide) (by decide)⟩

/-- C7 counterexample: on a fresh bank the first application of an event
yields zero ChangeNotes (first-observation suppression), not one as the claim
states; the second application also yields zero. -/
theorem C7_idempotence_counterexample :
    notesOf (update mkBank ⟨"PA", 1, [("armed", true)]⟩ 4) = [] ∧
    notesOf
        (update (bankOf (update mkBank ⟨"PA", 1, [("armed", true)]⟩ 4) mkBank)
          ⟨"PA", 1, [("armed", true)]⟩ 5) = [] := by
  decide

/-- C7 amended: applying the same decoded event (pairwise distinct topic
names, none of which is another name suffixed with _time) twice in a row,
the second application emits zero ChangeNotes and leaves the store exactly
as the first application left it; the number emitted by the first application
depends on the stored values (zero on a fresh bank). -/
theorem C7_idempotence_amended :
    ∀ (bank b1 : Bank) (ev : StateEvent) (now1 now2 : Int)
      (ns : List ChangeNote),
      (ev.topics.map Prod.fst).Nodup →
      (∀ p ∈ ev.topics, ∀ q ∈ ev.topics, p.1 ≠ q.1 ++ "_time") →
      update bank ev now1 = Except.ok (b1, ns) →
      update b1 ev now2 = Except.ok (b1, []) :=
  fun _ _ _ _ _ _ hnd hsep h1 => update_twice hnd hsep h1

/-- Witness for C7 at a concrete input: re-applying the zone-2 tamper event
leaves the bank unchanged and emits nothing. -/
theorem C7_idempotence_witness :
    update (bankOf (update mkBank ⟨"ZN", 2, [("tamper", true)]⟩ 1) mkBank)
        ⟨"ZN", 2, [("tamper", true)]⟩ 9 =
      Except.ok
        (bankOf (update mkBank ⟨"ZN", 2, [("tamper", true)]⟩ 1) mkBank, []) :=
  C7_idempotence_amended mkBank
    (bankOf (update mkBank ⟨"ZN", 2, [("tamper", true)]⟩ 1) mkBank)
    ⟨"ZN", 2, [("tamper", true)]⟩ 1 9
    (notesOf (update mkBank ⟨"ZN", 2, [("tamper", true)]⟩ 1))
    (by decide) (by decide) (by decide)

/-- C8: decode is partial on recognized-category lines: it returns an event
only when at least one digit follows position 2 and the payload has at most
as many characters as the topic list of the category; with no digit at
position 2 it raises (IndexError while building the topic dictionary when the
payload overruns, UnboundLocalError on the never-bound id otherwise), and a
payload longer than the topic list raises IndexError. -/
theorem C8_decode_partiality :
    ∀ (raw : String) (topics : List String),
      NX_EVENT_TYPES (String.mk (raw.data.take 2)) = some topics →
      ((∀ e, decode raw = DecodeResult.event e →
          lineDigits raw ≠ [] ∧ (linePayload raw).length ≤ topics.length) ∧
       (lineDigits raw = [] → ∃ er, decode raw = DecodeResult.raises er) ∧
       (topics.length < (linePayload raw).length →
          decode raw = DecodeResult.raises PyErr.indexError)) := by
  intro raw topics h
  refine ⟨?_, ?_, ?_⟩
  · intro e he
    unfold decode at he
    simp only [h] at he
    by_cases hd : lineDigits raw ≠ [] ∧
        (lineDigits raw).length = (raw.data.drop 2).length
    · rw [if_pos hd] at he
      exact DecodeResult.noConfusion he
    · rw [if_neg hd] at he
      by_cases ho : topics.length < (linePayload raw).length
      · rw [if_pos ho] at he
        exact DecodeResult.noConfusion he
      · rw [if_neg ho] at he
        by_cases hz : lineDigits raw = []
        · rw [if_pos hz] at he
          exact DecodeResult.noConfusion he
        · exact ⟨hz, by omega⟩
  · intro hz
    unfold decode
    simp only [h]
    rw [if_neg (by simp [hz])]
    by_cases ho : topics.length < (linePayload raw).length
    · rw [if_pos ho]
      exact ⟨PyErr.indexError, rfl⟩
    · rw [if_neg ho, if_pos hz]
      exact ⟨PyErr.unbound, rfl⟩
  · intro ho
    unfold decode
    simp only [h]
    have hne : ¬(lineDigits raw ≠ [] ∧
        (lineDigits raw).length = (raw.data.drop 2).length) := by
      rintro ⟨_, hlen2⟩
      have hp0 : (linePayload raw).length = 0 := by
        unfold linePayload
        rw [List.length_drop, hlen2]
        omega
      omega
    rw [if_neg hne, if_pos ho]

/-- Witness for C8 at concrete inputs: ZNx has a recognized category and no
digit at position 2, so decode raises; ZN001FttBaillbXY overruns the nine
zone topics and decode raises IndexError. -/
theorem C8_decode_partiality_witness :
    NX_EVENT_TYPES (String.mk ("ZNx".data.take 2)) = some ZONE_TOPICS ∧
    lineDigits "ZNx" = [] ∧
    (∃ er, decode "ZNx" = DecodeResult.raises er) ∧
    decode "ZN001FttBaillbXY" = DecodeResult.raises PyErr.indexError :=
  ⟨by decide, by decide,
   (C8_decode_partiality "ZNx" ZONE_TOPICS (by decide)).2.1 (by decide),
   (C8_decode_partiality "ZN001FttBaillbXY" ZONE_TOPICS (by decide)).2.2
     (by decide)⟩

/-- C9: get_status with an active session, a recognized category and an
in-range id, but a topic that is not one of the declared topics of that
category, raises KeyError from the device state dictionary rather than the
invalid-query error. -/
theorem C9_invalid_topic_keyerror :
    ∀ (ty : String) (tp : List String) (mx : Nat) (id : Int) (topic : String),
      NX_EVENT_TYPES ty = some tp → NX_MAX_DEVICES ty = some mx →
      1 ≤ id → id ≤ (mx : Int) → topic ∉ tp →
      get_status true mkBank ty id topic = GSResult.raisesKey := by
  intro ty tp mx id topic hty hmx h1 h2 hnot
  rcases ty_of_event_types hty with ⟨_, htp⟩ | ⟨_, htp⟩
  · subst htp
    exact get_status_bad_topic hty hmx h1 h2 hnot zone_topics_time_free
      zone_topics_time_time_free
  · subst htp
    exact get_status_bad_topic hty hmx h1 h2 hnot partition_topics_time_free
      partition_topics_time_time_free

/-- Witness for C9 at a concrete input: bogus is not a zone topic and the
query raises KeyError. -/
theorem C9_invalid_topic_witness :
    "bogus" ∉ ZONE_TOPICS ∧
    get_status true mkBank "ZN" 3 "bogus" = GSResult.raisesKey :=
  ⟨by decide,
   C9_invalid_topic_keyerror "ZN" ZONE_TOPICS 48 3 "bogus" (by decide)
     (by decide) (by decide) (by decide) (by decide)⟩

/-- C10: the Unknown tri-state is the integer -1 at the public interface:
on the fresh bank every declared topic of every in-range device reads as the
pair (-1, -1) through get_status (a normal return), the fresh bank satisfies
the invariant that a declared topic reads value -1 exactly when its timestamp
reads -1, and that invariant is preserved by every successful event
application whose topics are declared topics and whose clock value is
nonnegative, so a timestamp stays -1 until the first time its value changes. -/
theorem C10_unknown_tristate :
    (∀ (ty : String) (tp : List String) (mx : Nat) (id : Int) (topic : String),
      NX_EVENT_TYPES ty = some tp → NX_MAX_DEVICES ty = some mx →
      1 ≤ id → id ≤ (mx : Int) → topic ∈ tp →
      get_status true mkBank ty id topic = GSResult.ok (-1) (-1)) ∧
    TimeInv mkBank ∧
    (∀ (bank b2 : Bank) (ev : StateEvent) (now : Int) (tp : List String)
       (ns : List ChangeNote),
      NX_EVENT_TYPES ev.type = some tp → (∀ p ∈ ev.topics, p.1 ∈ tp) →
      0 ≤ now → update bank ev now = Except.ok (b2, ns) → TimeInv bank →
      TimeInv b2) := by
  refine ⟨?_, ?_, ?_⟩
  · intro ty tp mx id topic hty hmx h1 h2 hmem
    exact get_status_fresh hty hmx h1 h2 hmem
  · unfold TimeInv DevInv
    decide
  · intro bank b2 ev now tp ns hty hkeys hnow h hinv
    exact update_timeinv hty hkeys hnow h hinv

/-- Witness for C10 at concrete inputs: zone 1 tamper reads (-1, -1) on the
fresh bank, and the invariant survives a concrete fault event. -/
theorem C10_unknown_tristate_witness :
    get_status true mkBank "ZN" 1 "tamper" = GSResult.ok (-1) (-1) ∧
    TimeInv (bankOf (update mkBank ⟨"ZN", 1, [("fault", true)]⟩ 3) mkBank) :=
  ⟨C10_unknown_tristate.1 "ZN" ZONE_TOPICS 48 1 "tamper" (by decide)
     (by decide) (by decide) (by decide) (by decide),
   C10_unknown_tristate.2.2 mkBank
     (bankOf (update mkBank ⟨"ZN", 1, [("fault", true)]⟩ 3) mkBank)
     ⟨"ZN", 1, [("fault", true)]⟩ 3 ZONE_TOPICS
     (notesOf (update mkBank ⟨"ZN", 1, [("fault", true)]⟩ 3)) (by decide)
     (by decide) (by decide) (by decide) C10_unknown_tristate.2.1⟩
